import Mathlib

/-!
Shallow embedding of the message pipeline of the Claude-QoL browser extension
(claude-api.js, file-download.js, phantom-messages.js, exporter.js), together
with theorems settling the specification claims about it.

Modelling conventions:
* JS strings are Lean `String`s; a field a JS object may lack (`undefined`) or
  hold `null` in is an `Option`.
* Machine numbers are `Nat` (all quantities involved are non-negative integer
  counts; `Math.ceil(x / 4)` becomes `(x + 3) / 4`, `Math.round(a / b)` becomes
  `(2 * a + b) / (2 * b)`).
* `crypto.randomUUID()` is modelled by an id supply: functions that draw fresh
  ids take a counter and the n-th draw is `MsgId.gen n`; ids already present in
  data are `MsgId.named`.  `new Date().toISOString()` is modelled by an explicit
  timestamp argument, as the enclosing code does for `injectPhantomMessages`.
-/

/-- Message sender; the source stores the strings `'human'` / `'assistant'`. -/
inductive Sender where
  | human
  | assistant
deriving DecidableEq

/-- The alternate sender, as in `sender === 'human' ? 'assistant' : 'human'`. -/
def Sender.alternate : Sender → Sender
  | .human => .assistant
  | .assistant => .human

/-- Message and file identifiers. `named s` models an id literally present in
the data; `gen n` models the n-th id drawn from `crypto.randomUUID()`. -/
inductive MsgId where
  | named (s : String)
  | gen (n : Nat)
deriving DecidableEq

/-- The sentinel parent id `"00000000-0000-4000-8000-000000000000"` used by the
host for root-level messages. -/
def ROOT_ID : MsgId := .named "00000000-0000-4000-8000-000000000000"

/-- JS truthiness of an id-valued expression: `null`/`undefined` and the empty
string are falsy; a generated UUID string is always non-empty, hence truthy. -/
def msgIdTruthy : Option MsgId → Bool
  | none => false
  | some (.named s) => s ≠ ""
  | some (.gen _) => true

mutual
/-- A content block of a message (`{type, text, input, content, ...}`).
`text` is the `text` field (`none` = absent), `input` holds the serialized form
of a tool-use `input` object (`JSON.stringify(content.input)` is modelled as
reading off this stored string), `nested` is the nested `content` array of e.g.
`tool_result` blocks (empty models both an absent and an empty array, which the
source treats identically), and the three last fields are `start_timestamp`,
`stop_timestamp` and `citations`. -/
inductive ContentBlock where
  | mk (btype : String) (text : Option String) (input : Option String)
      (nested : ContentArr) (start_timestamp : Option String)
      (stop_timestamp : Option String) (citations : Option (List String))

/-- A list of nested content blocks (a separate type so that structural
recursion over the nesting is available). -/
inductive ContentArr where
  | nil
  | cons (c : ContentBlock) (cs : ContentArr)
end

/-- Block type tag (`content.type`). -/
def ContentBlock.btype : ContentBlock → String
  | .mk t _ _ _ _ _ _ => t

/-- Block `text` field. -/
def ContentBlock.text : ContentBlock → Option String
  | .mk _ tx _ _ _ _ _ => tx

/-- Block `input` field (serialized). -/
def ContentBlock.input : ContentBlock → Option String
  | .mk _ _ inp _ _ _ _ => inp

/-- A plain text block `{type: 'text', text: s}`. -/
def textBlock (s : String) : ContentBlock :=
  .mk "text" (some s) none .nil none none none

mutual
/-- The `extractFromContent` helper of `ClaudeConversation.extractMessageText`:
pushes `content.text` when truthy (non-empty string), the serialized
`content.input` when present (a present object is always truthy), and recurses
into the nested `content` array. -/
def extractFromContent : ContentBlock → List String
  | .mk _ tx inp nested _ _ _ =>
    (match tx with
      | some s => if s = "" then [] else [s]
      | none => []) ++
    (match inp with
      | some s => [s]
      | none => []) ++
    extractFromArr nested

/-- Fold of `extractFromContent` over a nested content array. -/
def extractFromArr : ContentArr → List String
  | .nil => []
  | .cons c cs => extractFromContent c ++ extractFromArr cs
end

/-- Piece list of a whole message content array. -/
def extractPieces (content : List ContentBlock) : List String :=
  (content.map extractFromContent).flatten

/-! ## File classes (claude-api.js) -/

/-- The three file classes of claude-api.js, as one sum type:
`file` is `ClaudeFile`, `attachment` is `ClaudeAttachment`, `codeExec` is
`ClaudeCodeExecutionFile`.  Asset fields (`preview_asset`, …) are JS objects,
kept abstract as the URL they carry; URL fields are strings. -/
inductive ClaudeFileT where
  | file (file_uuid file_name file_kind : Option String)
      (preview_asset document_asset thumbnail_asset : Option String)
      (preview_url thumbnail_url : Option String)
  | attachment (extracted_content : Option String) (file_name : Option String)
      (file_size : Option Nat) (file_type : Option String)
  | codeExec (file_uuid file_name sanitized_name : Option String)
      (path : Option String) (size_bytes : Option Nat)
      (file_kind : Option String) (created_at : Option String)
      (preview_asset document_asset thumbnail_asset : Option String)
      (preview_url thumbnail_url : Option String)
      (orgId conversationId : Option String)
      (extracted_content : Option String) (force_attachment_mode : Bool)
deriving DecidableEq

/-- Discriminator for `f instanceof ClaudeAttachment`. -/
def ClaudeFileT.isAttachment : ClaudeFileT → Bool
  | .attachment _ _ _ _ => true
  | _ => false

/-- Discriminator for `f instanceof ClaudeFile`. -/
def ClaudeFileT.isFile : ClaudeFileT → Bool
  | .file _ _ _ _ _ _ _ _ => true
  | _ => false

/-- Discriminator for `f instanceof ClaudeCodeExecutionFile`. -/
def ClaudeFileT.isCodeExec : ClaudeFileT → Bool
  | .codeExec _ _ _ _ _ _ _ _ _ _ _ _ _ _ _ _ => true
  | _ => false

/-- The contribution of one file to `estimateTokens`: attachments contribute
`file.extracted_content?.length || 0`, every other class contributes 0. -/
def attContentChars : ClaudeFileT → Nat
  | .attachment ec _ _ _ => (ec.getD "").length
  | _ => 0

/-! ## ClaudeMessage -/

/-- The data fields of a `ClaudeMessage` that the verified operations read.
Completion-only defaults of the class (timezone, locale, model, tools,
personalized_styles, rendering_mode) are constants never read by the exported
or chunked paths and are omitted. -/
structure ClaudeMessage where
  uuid : Option MsgId
  parent_message_uuid : Option MsgId
  sender : Sender
  index : Nat
  content : List ContentBlock
  created_at : Option String
  updated_at : Option String
  files : List ClaudeFileT
  sync_sources : List String
  truncated : Bool

/-- A freshly constructed `new ClaudeMessage(conversation)`: uuid `null`,
parent the ROOT sentinel, sender `'human'`, empty content and files. -/
def ClaudeMessage.blank : ClaudeMessage where
  uuid := none
  parent_message_uuid := some ROOT_ID
  sender := .human
  index := 0
  content := []
  created_at := none
  updated_at := none
  files := []
  sync_sources := []
  truncated := false

instance : Inhabited ClaudeMessage := ⟨ClaudeMessage.blank⟩

/-- The derived `text` getter: text blocks of `content` joined by `"\n\n"`. -/
def ClaudeMessage.text (m : ClaudeMessage) : String :=
  String.intercalate "\n\n"
    ((m.content.filter (fun c => c.btype = "text")).map (fun c => (c.text).getD ""))

/-- `ClaudeConversation.extractMessageText`: empty string for empty content,
otherwise all extracted pieces joined by `"\n"`. -/
def extractMessageText (m : ClaudeMessage) : String :=
  match m.content with
  | [] => ""
  | _ => String.intercalate "\n" (extractPieces m.content)

/-! ## Token estimation (file-download.js) -/

/-- Reserved token budget for the final chunk. -/
def LAST_CHUNK_SIZE : Nat := 15000

/-- Target token size for front chunks. -/
def MAIN_TARGET_CHUNK : Nat := 30000

/-- Character count a single message contributes to `estimateTokens`:
its extracted text plus the `extracted_content` of its attachments. -/
def msgChars (m : ClaudeMessage) : Nat :=
  (extractMessageText m).length + (m.files.map attContentChars).sum

/-- `estimateTokens`: total characters over the messages, divided by 4,
rounded up. -/
def estimateTokens (msgs : List ClaudeMessage) : Nat :=
  ((msgs.map msgChars).sum + 3) / 4

/-! ## Wire format for files (toApiFormat / parseFileFromAPI) -/

/-- A raw API file record, as produced by `toApiFormat` and consumed by
`parseFileFromAPI`.  Every field is optional (absent in JS is `none`);
`extracted_content` distinguishes absent (`none`) from `null`
(`some none`) because `parseFileFromAPI` tests `!== undefined`. -/
structure ApiFileRecord where
  file_uuid : Option String := none
  file_name : Option String := none
  sanitized_name : Option String := none
  path : Option String := none
  size_bytes : Option Nat := none
  file_kind : Option String := none
  created_at : Option String := none
  preview_asset : Option String := none
  document_asset : Option String := none
  thumbnail_asset : Option String := none
  preview_url : Option String := none
  thumbnail_url : Option String := none
  extracted_content : Option (Option String) := none
  file_size : Option Nat := none
  file_type : Option String := none
  id : Option MsgId := none
deriving DecidableEq

/-- JS truthiness of an optional string (absent, `null` and `""` are falsy). -/
def strTruthy : Option String → Bool
  | some s => s ≠ ""
  | none => false

/-- JS `s || null` for a string-valued field: `""` collapses to `null`. -/
def strOrNull : Option String → Option String
  | some s => if s = "" then none else some s
  | none => none

/-- Reference to the owning conversation (`orgId`, `conversationId`), the only
conversation data `parseFileFromAPI` forwards. -/
structure ConversationRef where
  orgId : Option String := none
  conversationId : Option String := none

/-- `ClaudeFile.toApiFormat` / `ClaudeAttachment.toApiFormat` /
`ClaudeCodeExecutionFile.toApiFormat`. -/
def ClaudeFileT.toApiFormat : ClaudeFileT → ApiFileRecord
  | .file u n k pa da ta pu tu =>
    { file_uuid := u, file_name := n, file_kind := k, preview_asset := pa,
      document_asset := da, thumbnail_asset := ta, preview_url := pu,
      thumbnail_url := tu }
  | .attachment ec n sz ty =>
    { extracted_content := some ec, file_name := n, file_size := sz,
      file_type := ty }
  | .codeExec u n sn p sb k ca pa da ta pu tu _ _ _ _ =>
    { file_uuid := u, file_name := n, sanitized_name := sn, path := p,
      size_bytes := sb, file_kind := k, created_at := ca, preview_asset := pa,
      document_asset := da, thumbnail_asset := ta, preview_url := pu,
      thumbnail_url := tu }

/-- `parseFileFromAPI`: a record with a truthy `path` is a code-execution
file, one carrying `extracted_content` is an attachment, one with a truthy
`file_uuid` a regular file; anything else throws `'Unknown file format'`.
Asset-object fields pass `|| null` unchanged (a present object is truthy);
URL-string fields collapse `""` to `null`. -/
def parseFileFromAPI (r : ApiFileRecord) (conv : Option ConversationRef) :
    Except String ClaudeFileT :=
  if strTruthy r.path then
    .ok (.codeExec r.file_uuid r.file_name r.sanitized_name r.path r.size_bytes
      r.file_kind r.created_at r.preview_asset r.document_asset
      r.thumbnail_asset (strOrNull r.preview_url) (strOrNull r.thumbnail_url)
      ((conv.map ConversationRef.orgId).join)
      ((conv.map ConversationRef.conversationId).join)
      (match r.extracted_content with
        | some (some s) => if s = "" then none else some s
        | _ => none)
      false)
  else if r.extracted_content.isSome then
    .ok (.attachment (r.extracted_content.getD none) r.file_name r.file_size
      r.file_type)
  else if strTruthy r.file_uuid then
    .ok (.file r.file_uuid r.file_name r.file_kind r.preview_asset
      r.document_asset r.thumbnail_asset (strOrNull r.preview_url)
      (strOrNull r.thumbnail_url))
  else .error "Unknown file format"

/-- Result of `ClaudeMessage._getFilesJSON`. -/
structure FilesJSON where
  files_v2 : List ApiFileRecord
  files_completion : List (Option String)
  files_history : List ApiFileRecord
  attachments : List ApiFileRecord

/-- `ClaudeMessage._getFilesJSON`: partitions the message's files into the
wire-level arrays.  Attachments serialize into `attachments`; code-execution
files with non-null extracted text that is forced inline or at most 15000
characters are inlined into `attachments` as plain text attachments, the rest
go to `files_v2` (images additionally to `files_history`); regular files go to
`files_v2` (images additionally to `files_history`). -/
def getFilesJSON : List ClaudeFileT → FilesJSON
  | [] => ⟨[], [], [], []⟩
  | f :: fs =>
    let rest := getFilesJSON fs
    match f with
    | .attachment _ _ _ _ =>
      { rest with attachments := f.toApiFormat :: rest.attachments }
    | .codeExec u n _ _ _ k _ _ _ _ _ _ _ _ ec force =>
      let shouldInline :=
        match ec with
        | some s => force || s.length ≤ 15000
        | none => false
      if shouldInline then
        { rest with attachments :=
          { extracted_content := some ec, file_name := n,
            file_size := some (ec.getD "").length,
            file_type := some "text/plain" } :: rest.attachments }
      else
        { rest with
          files_v2 := f.toApiFormat :: rest.files_v2
          files_completion := u :: rest.files_completion
          files_history :=
            if k = some "image" then f.toApiFormat :: rest.files_history
            else rest.files_history }
    | .file u _ k _ _ _ _ _ =>
      { rest with
        files_v2 := f.toApiFormat :: rest.files_v2
        files_completion := u :: rest.files_completion
        files_history :=
          if k = some "image" then f.toApiFormat :: rest.files_history
          else rest.files_history }

/-! ## History wire format (toHistoryJSON / _parseFromHistory) -/

/-- The record shape `toHistoryJSON` emits; also the shape of the raw
`chat_messages` entries of a conversation payload. -/
structure HistoryJson where
  uuid : Option MsgId
  text : String
  content : List ContentBlock
  sender : Sender
  index : Nat
  created_at : Option String
  updated_at : Option String
  truncated : Bool
  attachments : List ApiFileRecord
  files : List ApiFileRecord
  files_v2 : List ApiFileRecord
  sync_sources : List String
  parent_message_uuid : Option MsgId

/-- `ClaudeMessage.toHistoryJSON`. -/
def ClaudeMessage.toHistoryJSON (m : ClaudeMessage) : HistoryJson :=
  let fj := getFilesJSON m.files
  { uuid := m.uuid, text := m.text, content := m.content, sender := m.sender,
    index := m.index, created_at := m.created_at, updated_at := m.updated_at,
    truncated := m.truncated, attachments := fj.attachments,
    files := fj.files_history, files_v2 := fj.files_v2,
    sync_sources := m.sync_sources,
    parent_message_uuid := m.parent_message_uuid }

/-- Parse a list of API file records, propagating the first failure, as the
`attachFile(parseFileFromAPI(...))` loops do. -/
def parseFilesFromAPI (conv : Option ConversationRef) :
    List ApiFileRecord → Except String (List ClaudeFileT)
  | [] => .ok []
  | r :: rs => do
    let f ← parseFileFromAPI r conv
    let fs ← parseFilesFromAPI conv rs
    .ok (f :: fs)

/-- `ClaudeMessage._parseFromHistory` (via the constructor taking a history
record): copies the scalar fields and re-parses `files_v2` then `attachments`
into file instances. -/
def ClaudeMessage.parseFromHistory (conv : Option ConversationRef)
    (j : HistoryJson) : Except String ClaudeMessage := do
  let fsV2 ← parseFilesFromAPI conv j.files_v2
  let atts ← parseFilesFromAPI conv j.attachments
  .ok { uuid := j.uuid, parent_message_uuid := j.parent_message_uuid,
        sender := j.sender, index := j.index, content := j.content,
        created_at := j.created_at, updated_at := j.updated_at,
        truncated := j.truncated, sync_sources := j.sync_sources,
        files := fsV2 ++ atts }

/-! ## Chunk selection (file-download.js) -/

/-- Loop body of `takeMessagesUpToTokens`: `total` is the running token sum,
`split` the number of messages taken so far.  At the first message whose
estimate would cross the budget (and with at least one message already taken),
conservative mode stops before it, greedy mode takes it and stops. -/
def takeLoop (maxTokens : Nat) (greedy : Bool) :
    List ClaudeMessage → Nat → Nat → Nat
  | [], _, split => split
  | m :: rest, total, split =>
    if total + estimateTokens [m] > maxTokens ∧ 0 < split then
      if greedy then split + 1 else split
    else
      takeLoop maxTokens greedy rest (total + estimateTokens [m]) (split + 1)

/-- `takeMessagesUpToTokens`: run the loop from zero and apply the
at-least-one floor. -/
def takeMessagesUpToTokens (msgs : List ClaudeMessage) (maxTokens : Nat)
    (greedy : Bool) : Nat :=
  let r := takeLoop maxTokens greedy msgs 0 0
  if r = 0 then 1 else r

/-- `takeMessagesFromEnd`: the same count taken over the reversed list. -/
def takeMessagesFromEnd (msgs : List ClaudeMessage) (maxTokens : Nat)
    (greedy : Bool) : Nat :=
  takeMessagesUpToTokens msgs.reverse maxTokens greedy

/-- The boundary-adjustment loops of `calculateChunkBoundaries`: increment the
count while the chunk it selects would not start on a human message (and the
count still leaves messages in front). -/
def adjustToHuman (msgs : List ClaudeMessage) (count : Nat) : Nat :=
  if count < msgs.length ∧
      ((msgs.getD (msgs.length - count) default).sender ≠ Sender.human) then
    adjustToHuman msgs (count + 1)
  else count
termination_by msgs.length - count
decreasing_by omega

/-- JS `Math.round(a / b)` on non-negative numbers. -/
def jsRound (a b : Nat) : Nat := (2 * a + b) / (2 * b)

/-- The front-chunk loop of `calculateChunkBoundaries`, with `k` iterations
left (`k = 1` is the last iteration, which takes everything that remains).
Each iteration peels a suffix off `remaining` and prepends the chunks built by
the later iterations, matching the `unshift` accumulation of the source. -/
def frontLoop (target : Nat) : Nat → List ClaudeMessage →
    List (List ClaudeMessage)
  | 0, _ => []
  | k + 1, remaining =>
    if remaining.length = 0 then []
    else
      let takeCount :=
        if k = 0 then remaining.length
        else takeMessagesFromEnd remaining target false
      let adjusted0 := adjustToHuman remaining takeCount
      let adjusted :=
        if remaining.length ≤ adjusted0 then remaining.length else adjusted0
      let chunk := remaining.drop (remaining.length - adjusted)
      let rest := remaining.take (remaining.length - adjusted)
      frontLoop target k rest ++ [chunk]

/-- `calculateChunkBoundaries`: single chunk below twice the last-chunk
budget; otherwise reserve the last chunk greedily from the end, adjust it to
start on a human message, and partition the remainder into
`max 1 (round(remainingTokens / MAIN_TARGET_CHUNK))` front chunks. -/
def calculateChunkBoundaries (msgs : List ClaudeMessage) :
    List (List ClaudeMessage) :=
  let totalTokens := estimateTokens msgs
  if totalTokens < 2 * LAST_CHUNK_SIZE then [msgs]
  else
    let lastChunkCount0 := takeMessagesFromEnd msgs LAST_CHUNK_SIZE true
    let lastChunkCount := adjustToHuman msgs lastChunkCount0
    if msgs.length ≤ lastChunkCount then [msgs]
    else
      let lastChunk := msgs.drop (msgs.length - lastChunkCount)
      let remaining := msgs.take (msgs.length - lastChunkCount)
      let remainingTokens := estimateTokens remaining
      let numFrontChunks := max 1 (jsRound remainingTokens MAIN_TARGET_CHUNK)
      let targetPerChunk :=
        (remainingTokens + numFrontChunks - 1) / numFrontChunks
      frontLoop targetPerChunk numFrontChunks remaining ++ [lastChunk]

/-! ## Oversized-message splitting (file-download.js) -/

/-- Character cap per attachment part: `LAST_CHUNK_SIZE * 4`. -/
def SPLIT_MAX_CHARS : Nat := LAST_CHUNK_SIZE * 4

/-- Sentinel text of synthetic continuation messages. -/
def CONTINUED_MARKER : String := "[Continued attachments from previous message]"

/-- JS `String.prototype.lastIndexOf(c, pos)` on a character list: the largest
index `i ≤ pos` (and in range) with `l[i] = c`, if any. -/
def lastIndexOfCharWithin (l : List Char) (c : Char) (pos : Nat) : Option Nat :=
  ((List.range (min (pos + 1) l.length)).filter
    (fun i => l.getD i ' ' = c)).getLast?

/-- The split position one iteration of `splitOversizedAttachment` cuts at:
up to `maxChars` characters, moved to just past the last newline at or before
that point when that newline sits beyond half the cap. -/
def splitChunkEnd (remaining : List Char) : Nat :=
  let chunkEnd0 := min remaining.length SPLIT_MAX_CHARS
  if chunkEnd0 < remaining.length then
    match lastIndexOfCharWithin remaining '\n' chunkEnd0 with
    | some lastNewline =>
      if SPLIT_MAX_CHARS / 2 < lastNewline then lastNewline + 1 else chunkEnd0
    | none => chunkEnd0
  else chunkEnd0

theorem splitChunkEnd_pos (remaining : List Char) (h : remaining ≠ []) :
    1 ≤ splitChunkEnd remaining := by
  have hlen : 1 ≤ remaining.length := by
    cases remaining with
    | nil => exact absurd rfl h
    | cons a l => simp
  unfold splitChunkEnd SPLIT_MAX_CHARS LAST_CHUNK_SIZE
  dsimp only
  split
  · split
    · split <;> omega
    · omega
  · omega

/-- The `while (remaining.length > 0)` loop of `splitOversizedAttachment`:
cuts off parts of at most `SPLIT_MAX_CHARS` characters; each part is a raw
attachment record with a freshly generated id and a `_partN` file name. -/
def splitLoop (baseName ext ftype now : String) :
    List Char → Nat → Nat → List ApiFileRecord × Nat
  | [], _, ctr => ([], ctr)
  | c :: cs, partNum, ctr =>
    let chunkEnd := splitChunkEnd (c :: cs)
    let chunkText := (c :: cs).take chunkEnd
    let rest := (c :: cs).drop chunkEnd
    let part : ApiFileRecord :=
      { id := some (.gen ctr),
        file_name := some (baseName ++ "_part" ++ toString partNum ++ ext),
        file_size := some chunkText.length,
        file_type := some ftype,
        extracted_content := some (some (String.mk chunkText)),
        created_at := some now }
    let next := splitLoop baseName ext ftype now rest (partNum + 1) (ctr + 1)
    (part :: next.1, next.2)
termination_by remaining _ _ => remaining.length
decreasing_by
  have h1 := splitChunkEnd_pos (c :: cs) (List.cons_ne_nil c cs)
  simp only [List.length_drop, List.length_cons]
  omega

/-- The original file name of an attachment record
(`attachment.file_name || 'attachment.txt'`). -/
def attOriginalName (att : ApiFileRecord) : String :=
  match att.file_name with
  | some s => if s = "" then "attachment.txt" else s
  | none => "attachment.txt"

/-- The content type for attachment parts
(`attachment.file_type || "text/plain"`). -/
def attFtype (att : ApiFileRecord) : String :=
  match att.file_type with
  | some s => if s = "" then "text/plain" else s
  | none => "text/plain"

/-- Base of the original file name (up to the last dot when one exists past
position 0). -/
def attBaseName (att : ApiFileRecord) : String :=
  let nameL := (attOriginalName att).toList
  match lastIndexOfCharWithin nameL '.' nameL.length with
  | some i => if 0 < i then String.mk (nameL.take i) else attOriginalName att
  | none => attOriginalName att

/-- Extension of the original file name (from the last dot on, else `.txt`). -/
def attExt (att : ApiFileRecord) : String :=
  let nameL := (attOriginalName att).toList
  match lastIndexOfCharWithin nameL '.' nameL.length with
  | some i => if 0 < i then String.mk (nameL.drop i) else ".txt"
  | none => ".txt"

/-- `splitOversizedAttachment` on a raw attachment record: returns the record
unchanged when its content fits `SPLIT_MAX_CHARS`, otherwise splits the
content into `_partN` sub-attachments. -/
def splitOversizedAttachment (att : ApiFileRecord) (now : String) (ctr : Nat) :
    List ApiFileRecord × Nat :=
  let content := (att.extracted_content.getD none).getD ""
  if content.length ≤ SPLIT_MAX_CHARS then ([att], ctr)
  else
    splitLoop (attBaseName att) (attExt att) (attFtype att) now
      content.toList 1 ctr

/-- Per-part token estimate used while binning:
`Math.ceil((attachment.extracted_content?.length || 0) / 4)`. -/
def attRecordTokens (a : ApiFileRecord) : Nat :=
  (((a.extracted_content.getD none).getD "").length + 3) / 4

/-- The attachment-binning loop of `normalizeOversizedMessages`: greedily packs
part records into bins of at most `LAST_CHUNK_SIZE` estimated tokens, with the
safety fallback that an individually oversized part becomes its own bin. -/
def binAttachments : List ApiFileRecord → List ApiFileRecord → Nat →
    List (List ApiFileRecord)
  | [], current, _ => if current.isEmpty then [] else [current]
  | a :: rest, current, currentTokens =>
    let attTokens := attRecordTokens a
    if LAST_CHUNK_SIZE < attTokens then
      (if current.isEmpty then [] else [current]) ++
        [a] :: binAttachments rest [] 0
    else if LAST_CHUNK_SIZE < currentTokens + attTokens then
      current :: binAttachments rest [a] attTokens
    else
      binAttachments rest (current ++ [a]) (currentTokens + attTokens)

/-- `ClaudeAttachment.fromJSON` on a raw record. -/
def attFromJSON (r : ApiFileRecord) : ClaudeFileT :=
  .attachment (r.extracted_content.getD none) r.file_name r.file_size r.file_type

/-- The synthetic-message loop of `normalizeOversizedMessages` over the
attachment bins.  `first` marks the first bin (which keeps the original
content and non-attachment files); the final bin reuses the original message's
id, every other synthesized message draws a fresh id; an acknowledgment turn
from the alternate sender follows every non-final bin. -/
def genChunks (origMsg : ClaudeMessage) (nonAtts : List ClaudeFileT) :
    List (List ApiFileRecord) → Bool → Option MsgId → Nat →
    List ClaudeMessage × Nat
  | [], _, _, ctr => ([], ctr)
  | bin :: rest, first, prev, ctr =>
    let isLast := rest.isEmpty
    let uuid := if isLast then origMsg.uuid else some (MsgId.gen ctr)
    let ctr1 := if isLast then ctr else ctr + 1
    let chunkMsg : ClaudeMessage :=
      { ClaudeMessage.blank with
        uuid := uuid, parent_message_uuid := prev, sender := origMsg.sender,
        created_at := origMsg.created_at,
        content := if first then origMsg.content else [textBlock CONTINUED_MARKER],
        files := (if first then nonAtts else []) ++ bin.map attFromJSON }
    if isLast then ([chunkMsg], ctr1)
    else
      let ackMsg : ClaudeMessage :=
        { ClaudeMessage.blank with
          uuid := some (MsgId.gen ctr1), parent_message_uuid := chunkMsg.uuid,
          sender := origMsg.sender.alternate,
          content := [textBlock "Acknowledged."],
          created_at := origMsg.created_at }
      let next := genChunks origMsg nonAtts rest false ackMsg.uuid (ctr1 + 1)
      (chunkMsg :: ackMsg :: next.1, next.2)

/-- Split every attachment of a message (`msgAttachments.flatMap`), threading
the id supply. -/
def splitAllAttachments (now : String) :
    List ClaudeFileT → Nat → List ApiFileRecord × Nat
  | [], ctr => ([], ctr)
  | f :: fs, ctr =>
    let here := splitOversizedAttachment f.toApiFormat now ctr
    let rest := splitAllAttachments now fs here.2
    (here.1 ++ rest.1, rest.2)

/-- `normalizeOversizedMessages`: a message over the last-chunk budget whose
files include at least one attachment is replaced by one synthetic message per
attachment bin, with acknowledgment turns between consecutive bins; all other
messages pass through unchanged. -/
def normalizeOversizedMessages (now : String) :
    List ClaudeMessage → Nat → List ClaudeMessage × Nat
  | [], ctr => ([], ctr)
  | msg :: more, ctr =>
    let msgTokens := estimateTokens [msg]
    let msgAttachments := msg.files.filter (fun f => f.isAttachment)
    let msgNonAttachments := msg.files.filter (fun f => !f.isAttachment)
    if msgTokens ≤ LAST_CHUNK_SIZE ∨ msgAttachments.isEmpty then
      let rest := normalizeOversizedMessages now more ctr
      (msg :: rest.1, rest.2)
    else
      let processed := splitAllAttachments now msgAttachments ctr
      let attachmentChunks := binAttachments processed.1 [] 0
      let seg := genChunks msg msgNonAttachments attachmentChunks true
        msg.parent_message_uuid processed.2
      let rest := normalizeOversizedMessages now more seg.2
      (seg.1 ++ rest.1, rest.2)

/-! ## Message cleanup (file-download.js cleanupMessages) -/

/-- JS `msg.content?.[0]?.text || ''`. -/
def firstContentText (m : ClaudeMessage) : String :=
  match m.content with
  | [] => ""
  | c :: _ => (c.text).getD ""

/-- Step 1 of `cleanupMessages`: remove synthetic normalization pairs.  A
message carrying the continuation sentinel is removed; when it is immediately
preceded by a matching `'Acknowledged.'` filler from the alternate sender,
both are removed and the scan backs up one position. -/
def cleanupStep1 (l : List ClaudeMessage) (i : Nat) : List ClaudeMessage :=
  if h : i < l.length then
    let msg := l.getD i default
    if firstContentText msg = CONTINUED_MARKER then
      if hp : 0 < i ∧
          (l.getD (i - 1) default).sender = msg.sender.alternate ∧
          firstContentText (l.getD (i - 1) default) = "Acknowledged." then
        cleanupStep1 ((l.eraseIdx (i - 1)).eraseIdx (i - 1)) (i - 1)
      else
        cleanupStep1 (l.eraseIdx i) i
    else cleanupStep1 l (i + 1)
  else l
termination_by 2 * l.length - i
decreasing_by
  · have e1 : ((l.eraseIdx (i - 1)).eraseIdx (i - 1)).length = l.length - 2 := by
      have hi : i - 1 < l.length := by omega
      have hi3 : i - 1 < l.length - 1 := by omega
      have hi2 : i - 1 < (l.eraseIdx (i - 1)).length := by
        simp [List.length_eraseIdx, hi]
        omega
      simp [List.length_eraseIdx, hi, hi2, hi3]
      omega
    omega
  · have e1 : (l.eraseIdx i).length = l.length - 1 := by
      simp [List.length_eraseIdx, h]
    omega
  · omega

/-- Step 2 of `cleanupMessages`: between any two consecutive same-sender
messages, insert a synthetic filler turn (`'Acknowledged.'` from the
assistant, `'Continue.'` from the human) with a fresh id, re-pointing the
following message's parent at the filler. -/
def cleanupStep2 (now : String) (l : List ClaudeMessage) (i ctr : Nat) :
    List ClaudeMessage × Nat :=
  if h : i + 1 < l.length then
    let current := l.getD i default
    let next := l.getD (i + 1) default
    if current.sender = next.sender then
      let fillerSender := current.sender.alternate
      let fillerText :=
        if fillerSender = Sender.assistant then "Acknowledged." else "Continue."
      let fillerMessage : ClaudeMessage :=
        { ClaudeMessage.blank with
          uuid := some (MsgId.gen ctr),
          parent_message_uuid := current.uuid,
          sender := fillerSender,
          content := [textBlock fillerText],
          created_at :=
            if strTruthy current.created_at then current.created_at
            else some now }
      let l' := l.take (i + 1) ++
        fillerMessage ::
          { next with parent_message_uuid := fillerMessage.uuid } ::
          l.drop (i + 2)
      cleanupStep2 now l' (i + 2) (ctr + 1)
    else cleanupStep2 now l (i + 1) ctr
  else (l, ctr)
termination_by l.length - i
decreasing_by
  · simp only [List.length_append, List.length_take, List.length_cons,
      List.length_drop]
    omega
  · omega

/-- `cleanupMessages`: sentinel-pair removal followed by alternation repair. -/
def cleanupMessages (msgs : List ClaudeMessage) (now : String) (ctr : Nat) :
    List ClaudeMessage × Nat :=
  cleanupStep2 now (cleanupStep1 msgs 0) 0 ctr

/-! ## Phantom message injection (phantom-messages.js) -/

/-- The marker appended to every phantom message's text. -/
def PHANTOM_MARKER : String := "====PHANTOM_MESSAGE===="

/-- JS `if (!field) field = ts` on a string field. -/
def fillFalsyStr (ts : String) (o : Option String) : Option String :=
  if strTruthy o then o else some ts

/-- Per-block mutation of `injectPhantomMessages`: default the timestamps and
citations, and append the phantom marker to a present `text` field. -/
def phantomizeBlock (ts : String) : ContentBlock → ContentBlock
  | .mk t tx inp nested st sp cit =>
    .mk t
      (match tx with
        | some s => some (s ++ "\n\n" ++ PHANTOM_MARKER)
        | none => none)
      inp nested (fillFalsyStr ts st) (fillFalsyStr ts sp)
      (match cit with
        | some cs => some cs
        | none => some [])

/-- Per-message mutation of `injectPhantomMessages`: default the message
timestamps and phantomize every content item. -/
def phantomizeMsg (ts : String) (m : ClaudeMessage) : ClaudeMessage :=
  { m with
    created_at := fillFalsyStr ts m.created_at,
    updated_at := fillFalsyStr ts m.updated_at,
    content := m.content.map (phantomizeBlock ts) }

/-- The acknowledgment message appended when the last phantom is human. -/
def phantomAck (ts : String) (parentUuid : Option MsgId) (ctr : Nat) :
    ClaudeMessage :=
  { ClaudeMessage.blank with
    uuid := some (MsgId.gen ctr),
    parent_message_uuid := parentUuid,
    sender := .assistant,
    created_at := some ts,
    updated_at := some ts,
    content := [ContentBlock.mk "text"
      (some ("Acknowledged - end of previous conversation.\n\n" ++
        PHANTOM_MARKER))
      none .nil (some ts) (some ts) (some [])] }

/-- A conversation payload as the history endpoint returns it (only the
`chat_messages` field is read or written by the phantom overlay). -/
structure ConvoData where
  chat_messages : List HistoryJson

/-- Contiguous re-indexing of `data.chat_messages.forEach((msg, idx) =>
msg.index = idx)`. -/
def assignIndexes (i : Nat) : List HistoryJson → List HistoryJson
  | [] => []
  | m :: rest => { m with index := i } :: assignIndexes (i + 1) rest

/-- The phantomized phantom sequence, extended by an acknowledgment message
when its last entry is a human turn (the first half of
`injectPhantomMessages`, up to the conversion to history records). -/
def phantomWithAck (phantoms : List ClaudeMessage) (ts : String) (ctr : Nat) :
    List ClaudeMessage × Nat :=
  let processed := phantoms.map (phantomizeMsg ts)
  match processed.getLast? with
  | some lastP =>
    if lastP.sender = Sender.human then
      (processed ++ [phantomAck ts lastP.uuid ctr], ctr + 1)
    else (processed, ctr)
  | none => (processed, ctr)

/-- `injectPhantomMessages`: phantomize the stored phantoms, append an
acknowledgment if the last phantom is human, serialize them to history
records, re-point every root-level real message at the last phantom, prepend,
and re-index the concatenation.  (`reorderKeys` only permutes JS object keys
and backfills host-only keys from a reference record, which is the identity on
this typed record.) -/
def injectPhantomMessages (data : ConvoData) (phantoms : List ClaudeMessage)
    (ts : String) (ctr : Nat) : ConvoData × Nat :=
  let withAck := phantomWithAck phantoms ts ctr
  let finalPhantoms := withAck.1
  let phantomJson := finalPhantoms.map ClaudeMessage.toHistoryJSON
  let updatedReal :=
    match finalPhantoms.getLast? with
    | some lastP =>
      data.chat_messages.map (fun r =>
        if r.parent_message_uuid = some ROOT_ID then
          { r with parent_message_uuid := lastP.uuid }
        else r)
    | none => data.chat_messages
  (⟨assignIndexes 0 (phantomJson ++ updatedReal)⟩, withAck.2)

/-! ## Raw Claude JSON import (exporter.js parseRawClaudeJson) -/

/-- A parsed raw conversation payload (`JSON.parse` of the import file is host
work; the import logic starts from this structure).  `chat_messages` is `none`
when the field is missing or not an array. -/
structure RawConvoData where
  name : Option String
  chat_messages : Option (List HistoryJson)
  current_leaf_message_uuid : Option MsgId

/-- Result record of the import parsers. -/
structure RawImportResult where
  name : String
  messages : List ClaudeMessage
  warnings : List String

/-- `messageMap.get`: keys were written in order with `set(msg.uuid, msg)`,
so a lookup returns the last message bearing the id. -/
def mapLookup (msgs : List HistoryJson) (k : MsgId) : Option HistoryJson :=
  msgs.reverse.find? (fun m => m.uuid = some k)

/-- Map entry of the (truthy) current leaf id, the walk's starting point. -/
def leafStart (msgs : List HistoryJson) : Option MsgId → Option HistoryJson
  | some k => mapLookup msgs k
  | none => none

/-- The backward walk of `parseRawClaudeJson`: unshift the current message,
stop at a falsy or ROOT parent id, otherwise continue at the parent's map
entry (stopping silently when the lookup misses).  The source's `while`
diverges on cyclic parent chains; the fuel (always instantiated at
`msgs.length + 1`, enough for every acyclic chain) bounds the walk. -/
def buildBranch (msgs : List HistoryJson) :
    Nat → Option HistoryJson → List HistoryJson → List HistoryJson
  | 0, _, acc => acc
  | _ + 1, none, acc => acc
  | fuel + 1, some cur, acc =>
    let acc' := cur :: acc
    let pid := cur.parent_message_uuid
    if ¬ msgIdTruthy pid ∨ pid = some ROOT_ID then acc'
    else
      buildBranch msgs fuel
        (match pid with
          | some k => mapLookup msgs k
          | none => none) acc'

/-- Branch-map key of a message: `msg.parent_message_uuid || 'root'`. -/
def parentKeyOf (m : HistoryJson) : Option MsgId :=
  if msgIdTruthy m.parent_message_uuid then m.parent_message_uuid else none

/-- Conversion of one raw branch message into a `ClaudeMessage` (a fresh
instance keeps the constructor defaults for uuid/parent/index). -/
def convertRawMessage (conv : Option ConversationRef) (r : HistoryJson) :
    Except String ClaudeMessage := do
  let fsV2 ← parseFilesFromAPI conv r.files_v2
  let atts ← parseFilesFromAPI conv r.attachments
  .ok { ClaudeMessage.blank with
        sender := r.sender, content := r.content, created_at := r.created_at,
        files := fsV2 ++ atts }

/-- Conversion of the whole branch, propagating the first file-parse error. -/
def convertRawMessages (conv : Option ConversationRef) :
    List HistoryJson → Except String (List ClaudeMessage)
  | [] => .ok []
  | r :: rs => do
    let m ← convertRawMessage conv r
    let ms ← convertRawMessages conv rs
    .ok (m :: ms)

/-- `parseRawClaudeJson`: validate the payload shape, walk the active branch
backward from the current leaf, warn when several children share a parent,
and convert the branch to message instances. -/
def parseRawClaudeJson (data : RawConvoData) (conv : Option ConversationRef) :
    Except String RawImportResult :=
  match data.chat_messages with
  | none => .error "Invalid Claude JSON format: missing chat_messages array"
  | some msgs =>
    if msgIdTruthy data.current_leaf_message_uuid then
      let branch := buildBranch msgs (msgs.length + 1)
        (leafStart msgs data.current_leaf_message_uuid) []
      if branch.isEmpty then .error "Could not reconstruct message branch"
      else
        let parents := msgs.map parentKeyOf
        let warnings :=
          if parents.any (fun p => 1 < parents.count p) then
            ["Multiple branches detected. Importing the current active branch."]
          else []
        do
          let converted ← convertRawMessages conv branch
          .ok { name :=
                  match data.name with
                  | some s => if s = "" then "Imported Conversation" else s
                  | none => "Imported Conversation",
                messages := converted, warnings := warnings }
    else .error "Invalid Claude JSON format: missing current_leaf_message_uuid"

/-! ## Tagged-text export / import (exporter.js) -/

/-- The export tag marker (`EXPORT_TAG_PREFIX` constant of the source). -/
def EXPORT_TAG : String := "CLEXP:"

/-- JS template-literal interpolation of a possibly-undefined string. -/
def jsInterpOpt (o : Option String) : String := o.getD "undefined"

/-- JS `a || b` on two optional strings, for use in a truthiness context. -/
def jsOrElseStr (a b : Option String) : Option String :=
  if strTruthy a then a else b

/-- Stand-in for the host `new Date(iso).getTime()`.  The round-trip theorem
below only exercises messages without timestamps, which never reach this
conversion. -/
def jsDateGetTime (s : String) : Nat := s.length

/-- Stand-in for the host `new Date(parseInt(ms)).toISOString()`; likewise
never reached by the verified scenario. -/
def jsMillisToIso (s : String) : String := s

/-- Stand-in for the host `JSON.stringify` on a non-text content block; the
verified round trip only exercises text blocks, which the exporter prints
directly. -/
def jsonEncodeBlock (c : ContentBlock) : String :=
  "\x7b\"type\":\"" ++ c.btype ++ "\"\x7d"

/-- Stand-in for the host `JSON.stringify` on a file-record array. -/
def jsonEncodeRecords (rs : List ApiFileRecord) : String :=
  "[" ++ String.intercalate ","
    (rs.map (fun r => "\x7b\"file_name\":\"" ++ jsInterpOpt r.file_name ++ "\"\x7d"))
  ++ "]"

/-- Stand-in for the host `JSON.parse` of the serialized `Settings:` header
value, which this embedding keeps as opaque serialized text. -/
def jsonParseValue (s : String) : Option String := some s

/-- Stand-in for the host `JSON.parse` of a serialized non-text content block;
modelled as unparseable (the verified round trip never reaches it, since only
text blocks are exercised). -/
def jsonDecodeBlock (_ : String) : Option ContentBlock := none

/-- Stand-in for the host `JSON.parse` of a serialized file-record array;
likewise never reached by the verified scenario. -/
def jsonDecodeRecords (_ : String) : Option (List ApiFileRecord) := none

/-- The conversation-level data `formatTxtExport` reads. -/
structure ExportConvoData where
  name : String
  updated_at : Option String
  settings : Option String

/-- The tagged-text rendering of one message: role tag (with millisecond
timestamp suffix when the message has one), one tag per content block, then
optional `files_v2` / `attachments` property tags. -/
def exportMsgTxt (m : ClaudeMessage) : String :=
  let roleDelimiter := if m.sender = Sender.human then "User" else "Assistant"
  let isoTimestamp := jsOrElseStr m.created_at m.updated_at
  let timestamp : Nat :=
    match isoTimestamp with
    | some s => if s = "" then 0 else jsDateGetTime s
    | none => 0
  let timestampSuffix := if timestamp = 0 then "" else ":" ++ toString timestamp
  let tagLine := "[" ++ EXPORT_TAG ++ roleDelimiter ++ timestampSuffix ++ "]\n"
  let contentPart := String.join (m.content.map (fun c =>
    if c.btype = "text" then
      "[" ++ EXPORT_TAG ++ "content-text]\n" ++ jsInterpOpt c.text ++ "\n\n"
    else
      "[" ++ EXPORT_TAG ++ "content-" ++ c.btype ++ "]\n" ++
        jsonEncodeBlock c ++ "\n\n"))
  let files_v2 := (m.files.filter (fun f => !f.isAttachment)).map
    ClaudeFileT.toApiFormat
  let attachments := (m.files.filter (fun f => f.isAttachment)).map
    ClaudeFileT.toApiFormat
  let filesPart :=
    (if files_v2.isEmpty then ""
      else "[" ++ EXPORT_TAG ++ "files_v2]\n" ++
        jsonEncodeRecords files_v2 ++ "\n\n") ++
    (if attachments.isEmpty then ""
      else "[" ++ EXPORT_TAG ++ "attachments]\n" ++
        jsonEncodeRecords attachments ++ "\n\n")
  tagLine ++ contentPart ++ filesPart

/-- `formatTxtExport`: settings/title/date header followed by the tagged
renderings of the messages. -/
def formatTxtExport (cd : ExportConvoData) (messages : List ClaudeMessage)
    (_conversationId : String) : String :=
  "Settings: " ++ cd.settings.getD "\x7b\x7d" ++ "\n" ++
  "Title: " ++ cd.name ++ "\nDate: " ++ jsInterpOpt cd.updated_at ++ "\n\n" ++
  String.join (messages.map exportMsgTxt)

/-- List-character model of the JS `String.prototype.startsWith`. -/
def strStartsWith (s p : String) : Bool := p.toList.isPrefixOf s.toList

/-- List-character model of the JS `String.prototype.endsWith`. -/
def strEndsWith (s p : String) : Bool := p.toList.isSuffixOf s.toList

/-- List-character model of dropping the first `n` characters. -/
def strDrop (s : String) (n : Nat) : String := String.mk (s.toList.drop n)

/-- List-character model of dropping the last `n` characters. -/
def strDropRight (s : String) (n : Nat) : String :=
  String.mk (s.toList.take (s.toList.length - n))

/-- List-character model of the longest prefix satisfying `p`. -/
def strTakeWhile (p : Char → Bool) (s : String) : String :=
  String.mk (s.toList.takeWhile p)

/-- List-character model of the JS `String.prototype.trim`: whitespace
stripped from both ends. -/
def strTrim (s : String) : String :=
  String.mk
    (((s.toList.dropWhile Char.isWhitespace).reverse.dropWhile
      Char.isWhitespace).reverse)

/-- Accumulator loop for `strSplitNl`. -/
def splitNlAux : List Char → List Char → List String
  | [], acc => [String.mk acc.reverse]
  | c :: rest, acc =>
    if c = '\n' then String.mk acc.reverse :: splitNlAux rest []
    else splitNlAux rest (c :: acc)

/-- List-character model of the JS `text.split('\n')`. -/
def strSplitNl (s : String) : List String := splitNlAux s.toList []

/-- Character class `[\da-zA-Z_-]` of the tag regex. -/
def isTagChar (c : Char) : Bool :=
  c.isDigit || c.isAlpha || c = '_' || c = '-'

/-- Anchored match of `TAG_REGEX`
(`^\[CLEXP:([\da-zA-Z_-]+)(?::(\d+))?\]$`) against one line, returning the
marker and the optional digit group. -/
def matchTag (line : String) : Option (String × Option String) :=
  if strStartsWith line ("[" ++ EXPORT_TAG) ∧ strEndsWith line "]" ∧
      9 ≤ line.length then
    let inner := strDropRight (strDrop line 7) 1
    let marker := strTakeWhile isTagChar inner
    let rest := strDrop inner marker.length
    if marker = "" then none
    else if rest = "" then some (marker, none)
    else if strStartsWith rest ":" ∧ strDrop rest 1 ≠ "" ∧
        (strDrop rest 1).toList.all Char.isDigit then
      some (marker, some (strDrop rest 1))
    else none
  else none

/-- Whether the body-start regex `\n\[(.+)\]\n` matches at position `i`:
a newline, an opening bracket, at least one non-newline character, and a
closing bracket immediately followed by a newline. -/
def isMsgStartAt (l : List Char) (i : Nat) : Bool :=
  decide (l.getD i ' ' = '\n') && decide (l.getD (i + 1) ' ' = '[') &&
  (let t := l.drop (i + 2)
   let s := t.takeWhile (fun c => !decide (c = '\n'))
   decide (2 ≤ s.length) && decide (s.getLast? = some ']') &&
     decide (s.length < t.length))

/-- `text.search(/\n\[(.+)\]\n/)`: the first matching position, if any. -/
def searchMsgStart (text : String) : Option Nat :=
  let l := text.toList
  (List.range l.length).find? (fun i => isMsgStartAt l i)

/-- First capture of an `^Tag: (.+)/m`-style header match. -/
def lineCapture (text : String) (tagLabel : String) : Option String :=
  ((strSplitNl text).find? (fun ln =>
    strStartsWith ln tagLabel && decide (tagLabel.length < ln.length))).map
    (fun ln => strDrop ln tagLabel.length)

/-- A raw message accumulated by the first pass of `parseAndValidateText`. -/
structure RawTxtMsg where
  sender : Sender
  content : List ContentBlock
  files_v2 : List ApiFileRecord
  attachments : List ApiFileRecord
  created_at : Option String

/-- Scanner state of the first pass. -/
structure TxtParseSt where
  rawMessages : List RawTxtMsg
  currentRaw : Option RawTxtMsg
  currentTag : Option String
  textBuffer : String
  warnings : List String

/-- Apply an update to the message currently being accumulated. -/
def modifyCurrent (st : TxtParseSt) (f : RawTxtMsg → RawTxtMsg) : TxtParseSt :=
  { st with currentRaw := st.currentRaw.map f }

/-- `flushTextBuffer`: with a non-empty buffer and an active tag, apppend a
trimmed text block for `content-text`, decode JSON for other content types
(warning on failure), or set a message property for non-content tags (warning
on failure); then clear the buffer. -/
def flushTextBuffer (st : TxtParseSt) : TxtParseSt :=
  if st.textBuffer = "" then st
  else
    match st.currentTag with
    | none => st
    | some tag =>
      let st' :=
        if strStartsWith tag "content-" then
          let contentType := strDrop tag 8
          if contentType = "text" then
            modifyCurrent st (fun r =>
              { r with content := r.content ++ [textBlock (strTrim st.textBuffer)] })
          else
            match jsonDecodeBlock (strTrim st.textBuffer) with
            | some b => modifyCurrent st (fun r =>
                { r with content := r.content ++ [b] })
            | none => { st with warnings := st.warnings ++
                ["Failed to parse [content-" ++ contentType ++ "] block"] }
        else
          match jsonDecodeRecords (strTrim st.textBuffer) with
          | some rs =>
            if tag = "files_v2" then
              modifyCurrent st (fun r => { r with files_v2 := rs })
            else if tag = "attachments" then
              modifyCurrent st (fun r => { r with attachments := rs })
            else st
          | none => { st with warnings := st.warnings ++
              ["Failed to parse [" ++ tag ++ "] block"] }
      { st' with textBuffer := "" }

/-- A fresh raw message opened by a role marker. -/
def newRawMsg (role : Sender) (tsOpt : Option String) : RawTxtMsg :=
  { sender := role, content := [], files_v2 := [], attachments := [],
    created_at := tsOpt.map jsMillisToIso }

/-- The per-line scanner loop of `parseAndValidateText`. -/
def parseTxtLines : List String → TxtParseSt → Except String TxtParseSt
  | [], st => .ok st
  | line :: rest, st =>
    match matchTag line with
    | some (marker, tsOpt) =>
      let st1 := flushTextBuffer st
      if marker = "User" ∨ marker = "Assistant" then
        let role := if marker = "User" then Sender.human else Sender.assistant
        match st1.currentRaw with
        | some r =>
          if r.sender = role then
            .error ("Consecutive [" ++ marker ++ "] blocks not allowed")
          else
            parseTxtLines rest { st1 with
              rawMessages := st1.rawMessages ++ [r],
              currentRaw := some (newRawMsg role tsOpt),
              currentTag := none }
        | none =>
          parseTxtLines rest { st1 with
            currentRaw := some (newRawMsg role tsOpt), currentTag := none }
      else
        match st1.currentRaw with
        | none => .error ("Found [" ++ marker ++ "] before any message role")
        | some _ => parseTxtLines rest { st1 with currentTag := some marker }
    | none =>
      parseTxtLines rest { st with
        textBuffer :=
          if st.textBuffer = "" then line
          else st.textBuffer ++ "\n" ++ line }

/-- Result record of `parseAndValidateText`. -/
structure TxtImportResult where
  name : String
  messages : List ClaudeMessage
  warnings : List String
  settings : Option String

/-- Conversion of the accumulated raw messages into `ClaudeMessage`
instances (fresh instances keep constructor defaults; files re-parse through
`parseFileFromAPI`). -/
def convertTxtMessages (conv : Option ConversationRef) :
    List RawTxtMsg → Except String (List ClaudeMessage)
  | [] => .ok []
  | r :: rs => do
    let fsV2 ← parseFilesFromAPI conv r.files_v2
    let atts ← parseFilesFromAPI conv r.attachments
    let ms ← convertTxtMessages conv rs
    .ok ({ ClaudeMessage.blank with
            sender := r.sender, content := r.content,
            created_at := r.created_at, files := fsV2 ++ atts } :: ms)

/-- `parseAndValidateText`: parse the header, locate the first tag line, scan
the body lines into raw messages, validate (non-empty, starts with a User
turn), and convert to message instances. -/
def parseAndValidateText (text : String) (orgId : Option String) :
    Except String TxtImportResult :=
  let settings := (lineCapture text "Settings: ").bind jsonParseValue
  let title :=
    match lineCapture text "Title: " with
    | some t => strTrim t
    | none => "Imported Conversation"
  match searchMsgStart text with
  | none => .error "No messages found in file"
  | some contentStart =>
    let lineList := strSplitNl (strDrop text contentStart)
    do
      let stScan ← parseTxtLines lineList
        { rawMessages := [], currentRaw := none, currentTag := none,
          textBuffer := "", warnings := [] }
      let st2 := flushTextBuffer stScan
      let rawMessages := st2.rawMessages ++
        (match st2.currentRaw with | some r => [r] | none => [])
      match rawMessages with
      | [] => .error "No messages found in file"
      | first :: _ =>
        if first.sender = Sender.human then do
          let messages ← convertTxtMessages
            (some { orgId := orgId, conversationId := none }) rawMessages
          .ok { name := title, messages := messages,
                warnings := st2.warnings, settings := settings }
        else .error "Conversation must start with a User message"

/-! ## Supporting lemmas: length of joined text -/

theorem intercalate_go_length (s : String) (as : List String) : ∀ acc : String,
    (String.intercalate.go acc s as).length =
      acc.length + (((as.map String.length).sum) + as.length * s.length) := by
  induction as with
  | nil =>
    intro acc
    simp [String.intercalate.go]
  | cons a as ih =>
    intro acc
    simp only [String.intercalate.go]
    rw [ih]
    simp [String.length_append]
    ring

theorem length_intercalate (s : String) (l : List String) :
    (String.intercalate s l).length =
      (l.map String.length).sum + (l.length - 1) * s.length := by
  cases l with
  | nil => simp [String.intercalate]
  | cons a as =>
    simp only [String.intercalate]
    rw [intercalate_go_length]
    simp only [List.map_cons, List.sum_cons, List.length_cons,
      Nat.add_sub_cancel]
    ring

theorem extractMessageText_length (m : ClaudeMessage) :
    (extractMessageText m).length =
      ((extractPieces m.content).map String.length).sum +
        ((extractPieces m.content).length - 1) := by
  cases hc : m.content with
  | nil => simp [extractMessageText, extractPieces, hc]
  | cons c cs =>
    simp only [extractMessageText, hc]
    rw [length_intercalate]
    have hone : ("\n").length = 1 := rfl
    rw [hone, Nat.mul_one]

theorem sum_msgChars_eq (msgs : List ClaudeMessage) :
    (msgs.map msgChars).sum =
      (msgs.map (fun m =>
        ((extractPieces m.content).map String.length).sum +
          ((extractPieces m.content).length - 1) +
          (m.files.map attContentChars).sum)).sum := by
  induction msgs with
  | nil => rfl
  | cons m rest ih =>
    simp only [List.map_cons, List.sum_cons, ih, msgChars,
      extractMessageText_length]

/-! ## C8: estimateTokens -/

/-- Token estimate read literally from the spec sentence, for comparison:
the summed character length of all text content plus all inline-attachment
extracted content, divided by 4, rounded up (no separator characters). -/
def spec_estimateTokens (msgs : List ClaudeMessage) : Nat :=
  ((msgs.map (fun m =>
    ((extractPieces m.content).map String.length).sum +
      (m.files.map attContentChars).sum)).sum + 3) / 4

/-- A message with two text blocks of two characters each. -/
def c8CounterMsg : ClaudeMessage :=
  { ClaudeMessage.blank with content := [textBlock "ab", textBlock "cd"] }

/-- C8 counterexample: on a message with the two text blocks `"ab"` and
`"cd"`, the code estimates `ceil(5/4) = 2` tokens (the extracted pieces are
joined with a newline separator before measuring), while the claimed formula
`ceil((summed text length)/4)` gives `ceil(4/4) = 1`. -/
theorem c8_counterexample :
    estimateTokens [c8CounterMsg] ≠ spec_estimateTokens [c8CounterMsg] ∧
      estimateTokens [c8CounterMsg] = 2 ∧
      spec_estimateTokens [c8CounterMsg] = 1 := by
  refine ⟨?_, ?_, ?_⟩ <;> decide

/-- C8 (amended): `estimateTokens` of the empty list is 0; for every message
list the estimate is the ceiling of the quarter of the summed character
length of all extracted text pieces, plus one newline separator per
additional piece within a message, plus all inline-attachment extracted
content; and the estimate is monotonically non-decreasing, both under
appending messages and under any growth of the total character count. -/
theorem c8_amended :
    estimateTokens ([] : List ClaudeMessage) = 0 ∧
    (∀ msgs : List ClaudeMessage, estimateTokens msgs =
      ((msgs.map (fun m =>
        ((extractPieces m.content).map String.length).sum +
          ((extractPieces m.content).length - 1) +
          (m.files.map attContentChars).sum)).sum + 3) / 4) ∧
    (∀ msgs more : List ClaudeMessage,
      estimateTokens msgs ≤ estimateTokens (msgs ++ more)) ∧
    (∀ msgs bigger : List ClaudeMessage,
      (msgs.map msgChars).sum ≤ (bigger.map msgChars).sum →
        estimateTokens msgs ≤ estimateTokens bigger) := by
  refine ⟨by decide, ?_, ?_, ?_⟩
  · intro msgs
    unfold estimateTokens
    rw [sum_msgChars_eq]
  · intro msgs more
    unfold estimateTokens
    apply Nat.div_le_div_right
    simp only [List.map_append, List.sum_append]
    omega
  · intro msgs bigger h
    unfold estimateTokens
    apply Nat.div_le_div_right
    omega

/-- C8 witness: the amended theorem applied at concrete inputs, discharging
the growth hypothesis of its last conjunct. -/
theorem c8_amended_witness :
    (([] : List ClaudeMessage).map msgChars).sum ≤
        ([c8CounterMsg].map msgChars).sum ∧
      estimateTokens ([] : List ClaudeMessage) ≤ estimateTokens [c8CounterMsg] :=
  ⟨by decide, c8_amended.2.2.2 [] [c8CounterMsg] (by decide)⟩

/-! ## C10: takeMessagesFromEnd on the empty list -/

/-- C10: the at-least-one floor of `takeMessagesUpToTokens` applies
unconditionally, so on the empty message list `takeMessagesFromEnd` returns 1
in both modes — a count exceeding the list's length. -/
theorem c10_take_from_end_empty :
    ∀ (maxTokens : Nat) (greedy : Bool),
      takeMessagesFromEnd [] maxTokens greedy = 1 ∧
      takeMessagesUpToTokens [] maxTokens greedy = 1 ∧
      ([] : List ClaudeMessage).length < takeMessagesFromEnd [] maxTokens greedy := by
  intro maxTokens greedy
  refine ⟨rfl, rfl, ?_⟩
  simp [takeMessagesFromEnd, takeMessagesUpToTokens, takeLoop]

/-! ## Supporting lemmas: the take loop -/

/-- Sum of the per-message token estimates, the quantity the loop's
`totalTokens` accumulates. -/
def singleSum (msgs : List ClaudeMessage) : Nat :=
  (msgs.map (fun m => estimateTokens [m])).sum

theorem estimateTokens_le_singleSum (msgs : List ClaudeMessage) :
    estimateTokens msgs ≤ singleSum msgs := by
  induction msgs with
  | nil => simp [estimateTokens, singleSum]
  | cons m rest ih =>
    simp only [estimateTokens, singleSum, List.map_cons, List.sum_cons] at *
    have hm : estimateTokens [m] = (msgChars m + 3) / 4 := by
      simp [estimateTokens]
    omega

theorem takeLoop_ge (maxTokens : Nat) (greedy : Bool)
    (msgs : List ClaudeMessage) : ∀ total split,
    split ≤ takeLoop maxTokens greedy msgs total split := by
  induction msgs with
  | nil =>
    intro total split
    simp [takeLoop]
  | cons m rest ih =>
    intro total split
    simp only [takeLoop]
    split
    · split <;> omega
    · exact le_trans (Nat.le_succ split) (ih _ _)

theorem takeLoop_le (maxTokens : Nat) (greedy : Bool)
    (msgs : List ClaudeMessage) : ∀ total split,
    takeLoop maxTokens greedy msgs total split ≤ split + msgs.length := by
  induction msgs with
  | nil =>
    intro total split
    simp [takeLoop]
  | cons m rest ih =>
    intro total split
    simp only [takeLoop, List.length_cons]
    split
    · split <;> omega
    · have := ih (total + estimateTokens [m]) (split + 1)
      omega

theorem takeLoop_conservative_sum (maxTokens : Nat)
    (msgs : List ClaudeMessage) : ∀ total split, 1 ≤ split →
    total ≤ maxTokens →
    singleSum (msgs.take (takeLoop maxTokens false msgs total split - split)) +
        total ≤ maxTokens := by
  induction msgs with
  | nil =>
    intro total split h1 h2
    simp only [takeLoop, List.take_nil]
    simp [singleSum]
    omega
  | cons m rest ih =>
    intro total split h1 h2
    simp only [takeLoop]
    split
    · simp [singleSum]
      omega
    · rename_i hcond
      have ht : total + estimateTokens [m] ≤ maxTokens := by
        by_contra hlt
        exact hcond ⟨by omega, by omega⟩
      have hge := takeLoop_ge maxTokens false rest
        (total + estimateTokens [m]) (split + 1)
      have ihx := ih (total + estimateTokens [m]) (split + 1) (by omega) ht
      have hstep : (m :: rest).take
          (takeLoop maxTokens false rest (total + estimateTokens [m])
            (split + 1) - split) =
          m :: rest.take
            (takeLoop maxTokens false rest (total + estimateTokens [m])
              (split + 1) - (split + 1)) := by
        have hr : takeLoop maxTokens false rest (total + estimateTokens [m])
            (split + 1) - split =
            (takeLoop maxTokens false rest (total + estimateTokens [m])
              (split + 1) - (split + 1)) + 1 := by omega
        rw [hr, List.take_succ_cons]
      rw [hstep]
      simp only [singleSum, List.map_cons, List.sum_cons] at ihx ⊢
      omega

theorem takeLoop_greedy_rel (maxTokens : Nat) (msgs : List ClaudeMessage) :
    ∀ total split,
    takeLoop maxTokens true msgs total split =
        takeLoop maxTokens false msgs total split ∨
      (takeLoop maxTokens true msgs total split =
          takeLoop maxTokens false msgs total split + 1 ∧
        takeLoop maxTokens false msgs total split - split < msgs.length ∧
        singleSum (msgs.take
            (takeLoop maxTokens true msgs total split - split)) =
          singleSum (msgs.take
              (takeLoop maxTokens false msgs total split - split)) +
            estimateTokens
              [msgs.getD (takeLoop maxTokens false msgs total split - split)
                default]) := by
  induction msgs with
  | nil =>
    intro total split
    left
    rfl
  | cons m rest ih =>
    intro total split
    simp only [takeLoop]
    split
    · right
      refine ⟨rfl, by simp, ?_⟩
      simp [singleSum]
    · rcases ih (total + estimateTokens [m]) (split + 1) with heq | ⟨h1, h2, h3⟩
      · left
        exact heq
      · right
        have hge0 := takeLoop_ge maxTokens false rest
          (total + estimateTokens [m]) (split + 1)
        have hge1 := takeLoop_ge maxTokens true rest
          (total + estimateTokens [m]) (split + 1)
        refine ⟨h1, by simp only [List.length_cons]; omega, ?_⟩
        have e0 : takeLoop maxTokens false rest (total + estimateTokens [m])
            (split + 1) - split =
            (takeLoop maxTokens false rest (total + estimateTokens [m])
              (split + 1) - (split + 1)) + 1 := by omega
        have e1 : takeLoop maxTokens true rest (total + estimateTokens [m])
            (split + 1) - split =
            (takeLoop maxTokens true rest (total + estimateTokens [m])
              (split + 1) - (split + 1)) + 1 := by omega
        rw [e0, e1, List.take_succ_cons, List.take_succ_cons,
          List.getD_cons_succ]
        simp only [singleSum, List.map_cons, List.sum_cons] at h3 ⊢
        omega

theorem takeUpTo_ge_one (msgs : List ClaudeMessage) (maxTokens : Nat)
    (greedy : Bool) : 1 ≤ takeMessagesUpToTokens msgs maxTokens greedy := by
  unfold takeMessagesUpToTokens
  dsimp only
  split
  · omega
  · rename_i hne
    have := takeLoop_ge maxTokens greedy msgs 0 0
    omega

theorem takeUpTo_le_length (msgs : List ClaudeMessage) (maxTokens : Nat)
    (greedy : Bool) (h : msgs ≠ []) :
    takeMessagesUpToTokens msgs maxTokens greedy ≤ msgs.length := by
  have hlen : 1 ≤ msgs.length := List.length_pos.mpr h
  have hle := takeLoop_le maxTokens greedy msgs 0 0
  unfold takeMessagesUpToTokens
  dsimp only
  split <;> omega

theorem takeFromEnd_ge_one (msgs : List ClaudeMessage) (maxTokens : Nat)
    (greedy : Bool) : 1 ≤ takeMessagesFromEnd msgs maxTokens greedy :=
  takeUpTo_ge_one msgs.reverse maxTokens greedy

theorem takeFromEnd_le_length (msgs : List ClaudeMessage) (maxTokens : Nat)
    (greedy : Bool) (h : msgs ≠ []) :
    takeMessagesFromEnd msgs maxTokens greedy ≤ msgs.length := by
  have := takeUpTo_le_length msgs.reverse maxTokens greedy (by simpa using h)
  simpa using this

theorem takeUpTo_conservative_le (msgs : List ClaudeMessage) (maxTokens : Nat)
    (h2 : 2 ≤ takeMessagesUpToTokens msgs maxTokens false) :
    estimateTokens (msgs.take (takeMessagesUpToTokens msgs maxTokens false)) ≤
      maxTokens := by
  cases msgs with
  | nil =>
    simp [takeMessagesUpToTokens, takeLoop] at h2
  | cons m rest =>
    have hfirst : takeLoop maxTokens false (m :: rest) 0 0 =
        takeLoop maxTokens false rest (estimateTokens [m]) 1 := by
      simp [takeLoop]
    have hge := takeLoop_ge maxTokens false rest (estimateTokens [m]) 1
    have hk : takeMessagesUpToTokens (m :: rest) maxTokens false =
        takeLoop maxTokens false rest (estimateTokens [m]) 1 := by
      unfold takeMessagesUpToTokens
      dsimp only
      rw [hfirst]
      split <;> omega
    rw [hk] at h2 ⊢
    have ht : estimateTokens [m] ≤ maxTokens := by
      by_contra hgt
      cases rest with
      | nil =>
        simp [takeLoop] at h2
      | cons m2 r2 =>
        have : takeLoop maxTokens false (m2 :: r2) (estimateTokens [m]) 1 =
            1 := by
          simp only [takeLoop]
          have hcond : estimateTokens [m] + estimateTokens [m2] > maxTokens ∧
              0 < 1 := ⟨by omega, by omega⟩
          rw [if_pos hcond]
          rfl
        omega
    have hsum := takeLoop_conservative_sum maxTokens rest
      (estimateTokens [m]) 1 (by omega) ht
    have hstep : (m :: rest).take
        (takeLoop maxTokens false rest (estimateTokens [m]) 1) =
        m :: rest.take
          (takeLoop maxTokens false rest (estimateTokens [m]) 1 - 1) := by
      have hr : takeLoop maxTokens false rest (estimateTokens [m]) 1 =
          (takeLoop maxTokens false rest (estimateTokens [m]) 1 - 1) + 1 := by
        omega
      conv =>
        lhs
        rw [hr]
      rw [List.take_succ_cons]
    rw [hstep]
    calc estimateTokens (m :: rest.take
          (takeLoop maxTokens false rest (estimateTokens [m]) 1 - 1)) ≤
        singleSum (m :: rest.take
          (takeLoop maxTokens false rest (estimateTokens [m]) 1 - 1)) :=
      estimateTokens_le_singleSum _
      _ ≤ maxTokens := by
        simp only [singleSum, List.map_cons, List.sum_cons] at hsum ⊢
        omega

/-! ## Supporting lemmas: boundary adjustment and front chunks -/

theorem adjustToHuman_eq (msgs : List ClaudeMessage) (count : Nat) :
    adjustToHuman msgs count =
      if count < msgs.length ∧
          ((msgs.getD (msgs.length - count) default).sender ≠ Sender.human) then
        adjustToHuman msgs (count + 1)
      else count := by
  rw [adjustToHuman]

theorem adjustToHuman_props (msgs : List ClaudeMessage) : ∀ d count : Nat,
    msgs.length ≤ count + d →
      count ≤ adjustToHuman msgs count ∧
      (count ≤ msgs.length → adjustToHuman msgs count ≤ msgs.length) ∧
      (adjustToHuman msgs count < msgs.length →
        (msgs.getD (msgs.length - adjustToHuman msgs count) default).sender =
          Sender.human) := by
  intro d
  induction d with
  | zero =>
    intro count hc
    rw [adjustToHuman_eq]
    have hcond : ¬ (count < msgs.length ∧
        ((msgs.getD (msgs.length - count) default).sender ≠ Sender.human)) := by
      intro hx
      omega
    rw [if_neg hcond]
    refine ⟨le_refl _, fun h => h, fun hlt => ?_⟩
    omega
  | succ d ih =>
    intro count hc
    rw [adjustToHuman_eq]
    by_cases hcond : count < msgs.length ∧
        ((msgs.getD (msgs.length - count) default).sender ≠ Sender.human)
    · rw [if_pos hcond]
      have hrec := ih (count + 1) (by omega)
      exact ⟨by omega, fun _ => hrec.2.1 (by omega), hrec.2.2⟩
    · rw [if_neg hcond]
      refine ⟨le_refl _, fun h => h, fun hlt => ?_⟩
      by_contra hne
      exact hcond ⟨hlt, hne⟩

theorem adjustToHuman_ge (msgs : List ClaudeMessage) (count : Nat) :
    count ≤ adjustToHuman msgs count :=
  (adjustToHuman_props msgs msgs.length count (by omega)).1

theorem adjustToHuman_le (msgs : List ClaudeMessage) (count : Nat)
    (h : count ≤ msgs.length) : adjustToHuman msgs count ≤ msgs.length :=
  (adjustToHuman_props msgs msgs.length count (by omega)).2.1 h

theorem adjustToHuman_spec (msgs : List ClaudeMessage) (count : Nat)
    (h : adjustToHuman msgs count < msgs.length) :
    (msgs.getD (msgs.length - adjustToHuman msgs count) default).sender =
      Sender.human :=
  (adjustToHuman_props msgs msgs.length count (by omega)).2.2 h

/-- A chunk that begins with a human-sender message. -/
def chunkStartsHuman : List ClaudeMessage → Prop
  | [] => False
  | m :: _ => m.sender = Sender.human

theorem frontLoop_nil (target k : Nat) : frontLoop target k [] = [] := by
  cases k with
  | zero => rfl
  | succ j => simp [frontLoop]

theorem frontLoop_join (target : Nat) : ∀ (k : Nat)
    (remaining : List ClaudeMessage), 1 ≤ k →
    (frontLoop target k remaining).flatten = remaining := by
  intro k
  induction k with
  | zero =>
    intro remaining h
    omega
  | succ j ih =>
    intro remaining _
    by_cases hz : remaining.length = 0
    · have : remaining = [] := List.length_eq_zero.mp hz
      subst this
      simp [frontLoop]
    · simp only [frontLoop, if_neg hz]
      cases j with
      | zero =>
        have hadj : adjustToHuman remaining remaining.length =
            remaining.length := by
          rw [adjustToHuman_eq]
          rw [if_neg]
          intro hx
          omega
        simp only [if_pos rfl, hadj, le_refl, if_pos, Nat.sub_self,
          List.drop_zero, List.take_zero]
        rw [frontLoop_nil]
        simp
      | succ i =>
        have hne : ¬ (i + 1 = 0) := by omega
        simp only [if_neg hne]
        rw [List.flatten_append, ih _ (by omega)]
        simp [List.take_append_drop]

theorem forall_tail_append_singleton {α : Type} (P : α → Prop)
    (L : List α) (c : α) (hL : ∀ x ∈ L.tail, P x) (hc : P c) :
    ∀ x ∈ (L ++ [c]).tail, P x := by
  cases L with
  | nil => simp
  | cons a as =>
    simp only [List.cons_append, List.tail_cons] at *
    intro x hx
    rcases List.mem_append.mp hx with h | h
    · exact hL x h
    · simp at h
      subst h
      exact hc

theorem chunkStartsHuman_drop (msgs : List ClaudeMessage) (count : Nat)
    (h1 : 1 ≤ count) (h2 : count ≤ msgs.length)
    (hsender : (msgs.getD (msgs.length - count) default).sender =
      Sender.human) :
    chunkStartsHuman (msgs.drop (msgs.length - count)) := by
  have hidx : msgs.length - count < msgs.length := by omega
  rw [List.drop_eq_getElem_cons hidx]
  have := List.getD_eq_getElem msgs default hidx
  simp only [chunkStartsHuman]
  rw [← this]
  exact hsender

theorem frontLoop_chunks (target : Nat) : ∀ (k : Nat)
    (remaining : List ClaudeMessage),
    (∀ c ∈ frontLoop target k remaining, c ≠ []) ∧
    (∀ c ∈ (frontLoop target k remaining).tail, chunkStartsHuman c) := by
  intro k
  induction k with
  | zero =>
    intro remaining
    constructor <;> intro c hc <;> simp [frontLoop] at hc
  | succ j ih =>
    intro remaining
    by_cases hz : remaining.length = 0
    · have : remaining = [] := List.length_eq_zero.mp hz
      subst this
      constructor <;> intro c hc <;> simp [frontLoop] at hc
    · have hlen : 1 ≤ remaining.length := by omega
      simp only [frontLoop, if_neg hz]
      have htake : 1 ≤ (if j = 0 then remaining.length
          else takeMessagesFromEnd remaining target false) := by
        split
        · omega
        · exact takeFromEnd_ge_one remaining target false
      have hadjge := adjustToHuman_ge remaining
        (if j = 0 then remaining.length
          else takeMessagesFromEnd remaining target false)
      by_cases hbig : remaining.length ≤ adjustToHuman remaining
          (if j = 0 then remaining.length
            else takeMessagesFromEnd remaining target false)
      · simp only [if_pos hbig, Nat.sub_self, List.drop_zero, List.take_zero]
        rw [frontLoop_nil]
        constructor
        · intro c hc
          simp at hc
          subst hc
          intro hx
          subst hx
          simp at hz
        · intro c hc
          simp at hc
      · simp only [if_neg hbig]
        have hlt : adjustToHuman remaining
            (if j = 0 then remaining.length
              else takeMessagesFromEnd remaining target false) <
            remaining.length := by omega
        have hsender := adjustToHuman_spec remaining
          (if j = 0 then remaining.length
            else takeMessagesFromEnd remaining target false) hlt
        have hstarts := chunkStartsHuman_drop remaining
          (adjustToHuman remaining
            (if j = 0 then remaining.length
              else takeMessagesFromEnd remaining target false))
          (by omega) (by omega) hsender
        have hrec := ih (remaining.take (remaining.length -
          adjustToHuman remaining
            (if j = 0 then remaining.length
              else takeMessagesFromEnd remaining target false)))
        constructor
        · intro c hc
          rcases List.mem_append.mp hc with h | h
          · exact hrec.1 c h
          · simp at h
            subst h
            intro hx
            have : chunkStartsHuman ([] : List ClaudeMessage) := by
              rw [← hx]
              exact hstarts
            simp [chunkStartsHuman] at this
        · exact forall_tail_append_singleton chunkStartsHuman _ _ hrec.2 hstarts

/-! ## C2: calculateChunkBoundaries -/

/-- C2: concatenating the chunks returned by `calculateChunkBoundaries`
reproduces the input message sequence exactly, and every chunk except
possibly the very first begins with a human-sender message. -/
theorem c2_chunk_boundaries (msgs : List ClaudeMessage) :
    (calculateChunkBoundaries msgs).flatten = msgs ∧
    ∀ c ∈ (calculateChunkBoundaries msgs).tail, chunkStartsHuman c := by
  unfold calculateChunkBoundaries
  dsimp only
  by_cases hsmall : estimateTokens msgs < 2 * LAST_CHUNK_SIZE
  · rw [if_pos hsmall]
    constructor
    · simp
    · intro c hc
      simp at hc
  · rw [if_neg hsmall]
    by_cases hall : msgs.length ≤ adjustToHuman msgs
        (takeMessagesFromEnd msgs LAST_CHUNK_SIZE true)
    · rw [if_pos hall]
      constructor
      · simp
      · intro c hc
        simp at hc
    · rw [if_neg hall]
      have hlt : adjustToHuman msgs
          (takeMessagesFromEnd msgs LAST_CHUNK_SIZE true) < msgs.length := by
        omega
      have hge1 : 1 ≤ adjustToHuman msgs
          (takeMessagesFromEnd msgs LAST_CHUNK_SIZE true) :=
        le_trans (takeFromEnd_ge_one msgs LAST_CHUNK_SIZE true)
          (adjustToHuman_ge msgs _)
      have hsender := adjustToHuman_spec msgs
        (takeMessagesFromEnd msgs LAST_CHUNK_SIZE true) hlt
      have hstarts := chunkStartsHuman_drop msgs
        (adjustToHuman msgs (takeMessagesFromEnd msgs LAST_CHUNK_SIZE true))
        hge1 (by omega) hsender
      constructor
      · rw [List.flatten_append]
        rw [frontLoop_join _ _ _ (le_max_left 1 _)]
        simp [List.take_append_drop]
      · exact forall_tail_append_singleton chunkStartsHuman _ _
          (frontLoop_chunks _ _ _).2 hstarts

/-! ## C3: takeMessagesFromEnd token budgeting -/

/-- A message whose text is 240 characters, estimating at 60 tokens. -/
def msg240 : ClaudeMessage :=
  { ClaudeMessage.blank with
    content := [textBlock (String.mk (List.replicate 240 'a'))] }

/-- The three-message scenario of the claim. -/
def threeMsgs : List ClaudeMessage := [msg240, msg240, msg240]

/-- A message whose text is 800 characters, estimating at 200 tokens. -/
def bigMsg800 : ClaudeMessage :=
  { ClaudeMessage.blank with
    content := [textBlock (String.mk (List.replicate 800 'a'))] }

set_option maxRecDepth 100000 in
/-- C3 counterexample: conservative mode does not always undershoot the
budget.  Over the single message estimating at 200 tokens with budget 100,
`takeMessagesFromEnd` in conservative mode returns 1 (the at-least-one floor
forces the first trailing message in), and the taken messages' estimate, 200,
exceeds the budget. -/
theorem c3_counterexample :
    takeMessagesFromEnd [bigMsg800] 100 false = 1 ∧
    100 < estimateTokens ([bigMsg800].reverse.take
      (takeMessagesFromEnd [bigMsg800] 100 false)) := by
  constructor <;> decide

theorem takeFromEnd_floor_eq (msgs : List ClaudeMessage) (maxTokens : Nat)
    (greedy : Bool) :
    takeMessagesFromEnd msgs maxTokens greedy =
      if takeLoop maxTokens greedy msgs.reverse 0 0 = 0 then 1
      else takeLoop maxTokens greedy msgs.reverse 0 0 := rfl

set_option maxRecDepth 100000 in
/-- C3 (amended): for non-empty input `takeMessagesFromEnd` returns between 1
and the list length; in conservative mode, whenever the returned count is at
least 2 the total estimate of the taken trailing messages is within the
budget (only the forced single-message case may overshoot); greedy mode
returns the conservative count or exactly one more, and in the latter case
its accumulated per-message estimate exceeds the conservative one by exactly
the estimate of the one boundary-crossing message; and in the concrete
scenario — budget 100 over three messages of 60 estimated tokens each —
conservative mode returns 1 while greedy mode returns 2. -/
theorem c3_amended :
    (∀ (msgs : List ClaudeMessage) (maxTokens : Nat) (greedy : Bool),
      msgs ≠ [] →
        1 ≤ takeMessagesFromEnd msgs maxTokens greedy ∧
          takeMessagesFromEnd msgs maxTokens greedy ≤ msgs.length) ∧
    (∀ (msgs : List ClaudeMessage) (maxTokens : Nat),
      2 ≤ takeMessagesFromEnd msgs maxTokens false →
        estimateTokens (msgs.reverse.take
          (takeMessagesFromEnd msgs maxTokens false)) ≤ maxTokens) ∧
    (∀ (msgs : List ClaudeMessage) (maxTokens : Nat),
      takeMessagesFromEnd msgs maxTokens true =
          takeMessagesFromEnd msgs maxTokens false ∨
        takeMessagesFromEnd msgs maxTokens true =
          takeMessagesFromEnd msgs maxTokens false + 1) ∧
    (∀ (msgs : List ClaudeMessage) (maxTokens : Nat),
      takeMessagesFromEnd msgs maxTokens true =
          takeMessagesFromEnd msgs maxTokens false + 1 →
        singleSum (msgs.reverse.take
            (takeMessagesFromEnd msgs maxTokens true)) =
          singleSum (msgs.reverse.take
              (takeMessagesFromEnd msgs maxTokens false)) +
            estimateTokens [msgs.reverse.getD
              (takeMessagesFromEnd msgs maxTokens false) default]) ∧
    (takeMessagesFromEnd threeMsgs 100 false = 1 ∧
      takeMessagesFromEnd threeMsgs 100 true = 2 ∧
      estimateTokens [msg240] = 60) := by
  refine ⟨?_, ?_, ?_, ?_, by decide, by decide, by decide⟩
  · intro msgs maxTokens greedy h
    exact ⟨takeFromEnd_ge_one msgs maxTokens greedy,
      takeFromEnd_le_length msgs maxTokens greedy h⟩
  · intro msgs maxTokens h
    exact takeUpTo_conservative_le msgs.reverse maxTokens h
  · intro msgs maxTokens
    rcases takeLoop_greedy_rel maxTokens msgs.reverse 0 0 with heq | ⟨h1, _, _⟩
    · left
      rw [takeFromEnd_floor_eq, takeFromEnd_floor_eq, heq]
    · rw [takeFromEnd_floor_eq, takeFromEnd_floor_eq, h1]
      by_cases hz : takeLoop maxTokens false msgs.reverse 0 0 = 0
      · left
        rw [if_pos hz, hz]
        norm_num
      · right
        rw [if_neg hz, if_neg (by omega)]
  · intro msgs maxTokens h
    rcases takeLoop_greedy_rel maxTokens msgs.reverse 0 0 with heq | ⟨h1, h2, h3⟩
    · exfalso
      rw [takeFromEnd_floor_eq, takeFromEnd_floor_eq, heq] at h
      omega
    · by_cases hz : takeLoop maxTokens false msgs.reverse 0 0 = 0
      · exfalso
        rw [takeFromEnd_floor_eq, takeFromEnd_floor_eq, h1, if_pos hz, hz] at h
        simp at h
      · have e0 : takeMessagesFromEnd msgs maxTokens false =
            takeLoop maxTokens false msgs.reverse 0 0 := by
          rw [takeFromEnd_floor_eq, if_neg hz]
        have e1 : takeMessagesFromEnd msgs maxTokens true =
            takeLoop maxTokens true msgs.reverse 0 0 := by
          rw [takeFromEnd_floor_eq, if_neg (by omega)]
        rw [e0, e1]
        simpa using h3

set_option maxRecDepth 100000 in
/-- C3 witness: the amended theorem applied at concrete inputs, discharging
each hypothesis there. -/
theorem c3_amended_witness :
    (threeMsgs ≠ [] ∧ 1 ≤ takeMessagesFromEnd threeMsgs 100 true ∧
      takeMessagesFromEnd threeMsgs 100 true ≤ threeMsgs.length) ∧
    (2 ≤ takeMessagesFromEnd threeMsgs 130 false ∧
      estimateTokens (threeMsgs.reverse.take
        (takeMessagesFromEnd threeMsgs 130 false)) ≤ 130) ∧
    (takeMessagesFromEnd threeMsgs 100 true =
        takeMessagesFromEnd threeMsgs 100 false + 1 ∧
      singleSum (threeMsgs.reverse.take
          (takeMessagesFromEnd threeMsgs 100 true)) =
        singleSum (threeMsgs.reverse.take
            (takeMessagesFromEnd threeMsgs 100 false)) +
          estimateTokens [threeMsgs.reverse.getD
            (takeMessagesFromEnd threeMsgs 100 false) default]) :=
  ⟨⟨List.cons_ne_nil _ _, (c3_amended.1 threeMsgs 100 true
        (List.cons_ne_nil _ _)).1,
      (c3_amended.1 threeMsgs 100 true (List.cons_ne_nil _ _)).2⟩,
    ⟨by decide, c3_amended.2.1 threeMsgs 130 (by decide)⟩,
    ⟨by decide, c3_amended.2.2.2.1 threeMsgs 100 (by decide)⟩⟩

/-! ## C1: history wire-format round trip -/

/-- Files for which serialization is lossless: inline attachments, and
regular files as the `ClaudeFile` constructor produces them (truthy id, and
URL-string fields already collapsed from `""` to null by the constructor's
`|| null`).  Code-execution files are excluded: the inline branch of
`_getFilesJSON` rewrites them into plain attachments on the wire. -/
def plainFileOk : ClaudeFileT → Bool
  | .attachment _ _ _ _ => true
  | .file u _ _ _ _ _ pu tu =>
    strTruthy u && decide (pu ≠ some "") && decide (tu ≠ some "")
  | _ => false

theorem parseFile_roundtrip (conv : Option ConversationRef) (f : ClaudeFileT)
    (h : plainFileOk f = true) :
    parseFileFromAPI f.toApiFormat conv = .ok f := by
  cases f with
  | attachment ec n sz ty =>
    simp [parseFileFromAPI, ClaudeFileT.toApiFormat, strTruthy]
  | file u n k pa da ta pu tu =>
    simp only [plainFileOk, Bool.and_eq_true, decide_eq_true_eq] at h
    obtain ⟨⟨hu, hpu⟩, htu⟩ := h
    have hpu2 : strOrNull pu = pu := by
      cases pu with
      | none => rfl
      | some s =>
        simp only [strOrNull]
        rw [if_neg]
        intro hx
        subst hx
        exact hpu rfl
    have htu2 : strOrNull tu = tu := by
      cases tu with
      | none => rfl
      | some s =>
        simp only [strOrNull]
        rw [if_neg]
        intro hx
        subst hx
        exact htu rfl
    simp only [parseFileFromAPI, ClaudeFileT.toApiFormat]
    rw [if_neg (by simp [strTruthy])]
    rw [if_neg (by simp)]
    rw [if_pos hu, hpu2, htu2]
  | codeExec =>
    simp [plainFileOk] at h

theorem parseFiles_roundtrip (conv : Option ConversationRef)
    (fs : List ClaudeFileT) (h : ∀ f ∈ fs, plainFileOk f = true) :
    parseFilesFromAPI conv (fs.map ClaudeFileT.toApiFormat) = .ok fs := by
  induction fs with
  | nil => rfl
  | cons f rest ih =>
    simp only [List.map_cons, parseFilesFromAPI]
    rw [parseFile_roundtrip conv f (h f (by simp))]
    rw [ih (fun g hg => h g (by simp [hg]))]
    rfl

theorem getFilesJSON_plain (fs : List ClaudeFileT)
    (h : ∀ f ∈ fs, plainFileOk f = true) :
    (getFilesJSON fs).attachments =
      (fs.filter (fun f => f.isAttachment)).map ClaudeFileT.toApiFormat ∧
    (getFilesJSON fs).files_v2 =
      (fs.filter (fun f => !f.isAttachment)).map ClaudeFileT.toApiFormat := by
  induction fs with
  | nil => constructor <;> rfl
  | cons f rest ih =>
    have hrest := ih (fun g hg => h g (by simp [hg]))
    cases f with
    | attachment ec n sz ty =>
      refine ⟨?_, ?_⟩
      · show ClaudeFileT.toApiFormat (.attachment ec n sz ty) ::
          (getFilesJSON rest).attachments = _
        rw [List.filter_cons_of_pos rfl, List.map_cons, hrest.1]
      · show (getFilesJSON rest).files_v2 = _
        rw [List.filter_cons_of_neg (fun hx => by simp [ClaudeFileT.isAttachment] at hx), hrest.2]
    | file u n k pa da ta pu tu =>
      refine ⟨?_, ?_⟩
      · show (getFilesJSON rest).attachments = _
        rw [List.filter_cons_of_neg (fun hx => by simp [ClaudeFileT.isAttachment] at hx), hrest.1]
      · show ClaudeFileT.toApiFormat (.file u n k pa da ta pu tu) ::
          (getFilesJSON rest).files_v2 = _
        rw [List.filter_cons_of_pos rfl, List.map_cons, hrest.2]
    | codeExec a b c d e g i j k l o p q r s t =>
      have hx := h (.codeExec a b c d e g i j k l o p q r s t)
        (List.mem_cons_self _ _)
      simp [plainFileOk] at hx

theorem filter_not_att_perm (fs : List ClaudeFileT) :
    (fs.filter (fun f => !f.isAttachment) ++
      fs.filter (fun f => f.isAttachment)).Perm fs := by
  induction fs with
  | nil => simp
  | cons f rest ih =>
    by_cases hf : f.isAttachment = true
    · simp only [List.filter_cons, hf, Bool.not_true]
      simp only [Bool.false_eq_true, if_false, if_true]
      exact List.perm_middle.trans (ih.cons f)
    · have hf2 : f.isAttachment = false := by
        cases hx : f.isAttachment
        · rfl
        · exact absurd hx hf
      simp only [List.filter_cons, hf2, Bool.not_false]
      simp only [Bool.false_eq_true, if_false, if_true, List.cons_append]
      exact ih.cons f

/-- Files whose serialized wire record parses back successfully (possibly as
a different class): inline attachments always; regular files with a truthy
id; code-execution files that are either inlined by `_getFilesJSON` (non-null
extracted text that is forced inline or at most 15000 characters) or carry a
truthy path or id. -/
def fileWireOk : ClaudeFileT → Bool
  | .attachment _ _ _ _ => true
  | .file u _ _ _ _ _ _ _ => strTruthy u
  | .codeExec u _ _ p _ _ _ _ _ _ _ _ _ _ ec force =>
    (match ec with
      | some s => force || s.length ≤ 15000
      | none => false) || strTruthy p || strTruthy u

theorem parseFileFromAPI_ok (r : ApiFileRecord) (conv : Option ConversationRef)
    (h : (strTruthy r.path || r.extracted_content.isSome ||
      strTruthy r.file_uuid) = true) :
    ∃ g, parseFileFromAPI r conv = .ok g := by
  unfold parseFileFromAPI
  by_cases h1 : strTruthy r.path = true
  · rw [if_pos h1]
    exact ⟨_, rfl⟩
  · rw [if_neg h1]
    by_cases h2 : r.extracted_content.isSome = true
    · rw [if_pos h2]
      exact ⟨_, rfl⟩
    · rw [if_neg h2]
      have h3 : strTruthy r.file_uuid = true := by
        simp only [Bool.or_eq_true] at h
        rcases h with (h | h) | h
        · exact absurd h h1
        · exact absurd h h2
        · exact h
      rw [if_pos h3]
      exact ⟨_, rfl⟩

theorem parseFiles_cons_ok (conv : Option ConversationRef) (r : ApiFileRecord)
    (rs : List ApiFileRecord) (g : ClaudeFileT) (l : List ClaudeFileT)
    (hg : parseFileFromAPI r conv = .ok g)
    (hl : parseFilesFromAPI conv rs = .ok l) :
    parseFilesFromAPI conv (r :: rs) = .ok (g :: l) := by
  simp only [parseFilesFromAPI]
  rw [hg, hl]
  rfl

/-- The attachment record emitted for an inlined code-execution file (or a
plain attachment) always parses back, as a `ClaudeAttachment`. -/
theorem parseFile_inlined_codeExec (conv : Option ConversationRef)
    (ec : Option String) (n : Option String) (sz : Option Nat)
    (ty : Option String) :
    parseFileFromAPI
      { extracted_content := some ec, file_name := n, file_size := sz,
        file_type := ty } conv =
      .ok (.attachment ec n sz ty) := rfl

/-- The `attachments` array `_getFilesJSON` emits always re-parses: its
records are inline attachments or inlined code-execution files, both carrying
`extracted_content`. -/
theorem parseFiles_attachments_ok (conv : Option ConversationRef)
    (fs : List ClaudeFileT) :
    ∃ l, parseFilesFromAPI conv (getFilesJSON fs).attachments = .ok l := by
  induction fs with
  | nil => exact ⟨[], rfl⟩
  | cons f rest ih =>
    obtain ⟨l, hl⟩ := ih
    cases f with
    | attachment ec n sz ty =>
      exact ⟨ClaudeFileT.attachment ec n sz ty :: l,
        parseFiles_cons_ok conv _ _ _ _ (parseFile_roundtrip conv _ rfl) hl⟩
    | file u n k pa da ta pu tu => exact ⟨l, hl⟩
    | codeExec u n sn p sb k ca pa da ta pu tu o c ec force =>
      cases ec with
      | none => exact ⟨l, hl⟩
      | some s =>
        by_cases hf : (force || decide (s.length ≤ 15000)) = true
        · have hatt : (getFilesJSON (ClaudeFileT.codeExec u n sn p sb k ca pa
              da ta pu tu o c (some s) force :: rest)).attachments =
              { extracted_content := some (some s), file_name := n,
                file_size := some s.length,
                file_type := some "text/plain" } ::
                (getFilesJSON rest).attachments := by
            simp only [getFilesJSON]
            rw [if_pos hf]
            rfl
          rw [hatt]
          exact ⟨ClaudeFileT.attachment (some s) n (some s.length)
              (some "text/plain") :: l,
            parseFiles_cons_ok conv _ _ _ _
              (parseFile_inlined_codeExec conv (some s) n (some s.length)
                (some "text/plain")) hl⟩
        · have hatt : (getFilesJSON (ClaudeFileT.codeExec u n sn p sb k ca pa
              da ta pu tu o c (some s) force :: rest)).attachments =
              (getFilesJSON rest).attachments := by
            simp only [getFilesJSON]
            rw [if_neg hf]
          rw [hatt]
          exact ⟨l, hl⟩

/-- The `files_v2` array re-parses whenever every file of the message is
wire-parseable. -/
theorem parseFiles_v2_ok (conv : Option ConversationRef)
    (fs : List ClaudeFileT) (h : ∀ f ∈ fs, fileWireOk f = true) :
    ∃ l, parseFilesFromAPI conv (getFilesJSON fs).files_v2 = .ok l := by
  induction fs with
  | nil => exact ⟨[], rfl⟩
  | cons f rest ih =>
    obtain ⟨l, hl⟩ := ih (fun g hg => h g (List.mem_cons_of_mem _ hg))
    cases f with
    | attachment ec n sz ty => exact ⟨l, hl⟩
    | file u n k pa da ta pu tu =>
      have hu : strTruthy u = true := h _ (List.mem_cons_self _ _)
      obtain ⟨g, hg⟩ := parseFileFromAPI_ok
        (ClaudeFileT.file u n k pa da ta pu tu).toApiFormat conv
        (by simp only [ClaudeFileT.toApiFormat,
              show strTruthy none = false from rfl, Option.isSome_none,
              Bool.false_or]
            exact hu)
      exact ⟨g :: l, parseFiles_cons_ok conv _ _ _ _ hg hl⟩
    | codeExec u n sn p sb k ca pa da ta pu tu o c ec force =>
      have hw := h _ (List.mem_cons_self _ _)
      cases ec with
      | none =>
        have hpu : (strTruthy p || strTruthy u) = true := by
          simpa [fileWireOk] using hw
        obtain ⟨g, hg⟩ := parseFileFromAPI_ok
          (ClaudeFileT.codeExec u n sn p sb k ca pa da ta pu tu o c none
            force).toApiFormat conv
          (by simp only [ClaudeFileT.toApiFormat, Bool.or_eq_true] at hpu ⊢
              rcases hpu with hp | hu
              · exact Or.inl (Or.inl hp)
              · exact Or.inr hu)
        exact ⟨g :: l, parseFiles_cons_ok conv _ _ _ _ hg hl⟩
      | some s =>
        by_cases hf : (force || decide (s.length ≤ 15000)) = true
        · have hv2 : (getFilesJSON (ClaudeFileT.codeExec u n sn p sb k ca pa
              da ta pu tu o c (some s) force :: rest)).files_v2 =
              (getFilesJSON rest).files_v2 := by
            simp only [getFilesJSON]
            rw [if_pos hf]
          rw [hv2]
          exact ⟨l, hl⟩
        · have hpu : (strTruthy p || strTruthy u) = true := by
            have := hw
            simp only [fileWireOk] at this
            rcases Bool.or_eq_true _ _ |>.mp this with hx | hu
            · rcases Bool.or_eq_true _ _ |>.mp hx with hb | hp
              · exact absurd hb hf
              · simp [hp]
            · simp [hu]
          have hv2 : (getFilesJSON (ClaudeFileT.codeExec u n sn p sb k ca pa
              da ta pu tu o c (some s) force :: rest)).files_v2 =
              (ClaudeFileT.codeExec u n sn p sb k ca pa da ta pu tu o c
                (some s) force).toApiFormat ::
                (getFilesJSON rest).files_v2 := by
            simp only [getFilesJSON]
            rw [if_neg hf]
          rw [hv2]
          obtain ⟨g, hg⟩ := parseFileFromAPI_ok
            (ClaudeFileT.codeExec u n sn p sb k ca pa da ta pu tu o c
              (some s) force).toApiFormat conv
            (by simp only [ClaudeFileT.toApiFormat, Bool.or_eq_true] at hpu ⊢
                rcases hpu with hp | hu
                · exact Or.inl (Or.inl hp)
                · exact Or.inr hu)
          exact ⟨g :: l, parseFiles_cons_ok conv _ _ _ _ hg hl⟩

/-- C1 (amended): parsing a serialized message back reproduces the
displayable text and the content-block sequence whenever the parse succeeds;
the parse succeeds for every message whose files are wire-parseable (inline
attachments, regular files with a truthy id, and code-execution files that
are inlined or carry a truthy path or id — in particular every short-text
code-execution message); and the attached-file multiset is reproduced exactly
whenever every attached file is an inline attachment or a regular file record
as the class constructor normalizes them. -/
theorem c1_amended :
    (∀ (m : ClaudeMessage) (conv : Option ConversationRef)
        (m' : ClaudeMessage),
      ClaudeMessage.parseFromHistory conv m.toHistoryJSON = .ok m' →
      m'.text = m.text ∧ m'.content = m.content) ∧
    (∀ (m : ClaudeMessage) (conv : Option ConversationRef),
      (∀ f ∈ m.files, fileWireOk f = true) →
      ∃ m', ClaudeMessage.parseFromHistory conv m.toHistoryJSON = .ok m' ∧
        m'.text = m.text ∧ m'.content = m.content) ∧
    (∀ (m : ClaudeMessage) (conv : Option ConversationRef),
      (∀ f ∈ m.files, plainFileOk f = true) →
      ∃ m', ClaudeMessage.parseFromHistory conv m.toHistoryJSON = .ok m' ∧
        m'.text = m.text ∧ m'.content = m.content ∧
        m'.files.Perm m.files) := by
  refine ⟨?_, ?_, ?_⟩
  · intro m conv m' hok
    cases hv2 : parseFilesFromAPI conv m.toHistoryJSON.files_v2 with
    | error e =>
      have hfail : ClaudeMessage.parseFromHistory conv m.toHistoryJSON =
          .error e := by
        unfold ClaudeMessage.parseFromHistory
        rw [hv2]
        rfl
      rw [hfail] at hok
      exact Except.noConfusion hok
    | ok l1 =>
      cases hatt : parseFilesFromAPI conv m.toHistoryJSON.attachments with
      | error e =>
        have hfail : ClaudeMessage.parseFromHistory conv m.toHistoryJSON =
            .error e := by
          unfold ClaudeMessage.parseFromHistory
          rw [hv2, hatt]
          rfl
        rw [hfail] at hok
        exact Except.noConfusion hok
      | ok l2 =>
        have hc : ClaudeMessage.parseFromHistory conv m.toHistoryJSON =
            .ok (⟨m.uuid, m.parent_message_uuid, m.sender, m.index,
              m.content, m.created_at, m.updated_at, l1 ++ l2,
              m.sync_sources, m.truncated⟩ : ClaudeMessage) := by
          unfold ClaudeMessage.parseFromHistory
          rw [hv2, hatt]
          rfl
        rw [hc] at hok
        have hm := Except.ok.inj hok
        rw [← hm]
        exact ⟨rfl, rfl⟩
  · intro m conv h
    obtain ⟨l1, h1⟩ := parseFiles_v2_ok conv m.files h
    obtain ⟨l2, h2⟩ := parseFiles_attachments_ok conv m.files
    refine ⟨(⟨m.uuid, m.parent_message_uuid, m.sender, m.index, m.content,
        m.created_at, m.updated_at, l1 ++ l2,
        m.sync_sources, m.truncated⟩ : ClaudeMessage), ?_, rfl, rfl⟩
    unfold ClaudeMessage.parseFromHistory
    rw [show m.toHistoryJSON.files_v2 = (getFilesJSON m.files).files_v2
        from rfl,
      h1,
      show m.toHistoryJSON.attachments = (getFilesJSON m.files).attachments
        from rfl,
      h2]
    rfl
  · intro m conv h
    have hfj := getFilesJSON_plain m.files h
    have hv2 : parseFilesFromAPI conv m.toHistoryJSON.files_v2 =
        .ok (m.files.filter (fun f => !f.isAttachment)) := by
      have : m.toHistoryJSON.files_v2 = (getFilesJSON m.files).files_v2 := rfl
      rw [this, hfj.2]
      exact parseFiles_roundtrip conv _
        (fun g hg => h g (List.mem_of_mem_filter hg))
    have hatts : parseFilesFromAPI conv m.toHistoryJSON.attachments =
        .ok (m.files.filter (fun f => f.isAttachment)) := by
      have : m.toHistoryJSON.attachments =
          (getFilesJSON m.files).attachments := rfl
      rw [this, hfj.1]
      exact parseFiles_roundtrip conv _
        (fun g hg => h g (List.mem_of_mem_filter hg))
    refine ⟨(⟨m.uuid, m.parent_message_uuid, m.sender, m.index, m.content,
        m.created_at, m.updated_at,
        m.files.filter (fun f => !f.isAttachment) ++
          m.files.filter (fun f => f.isAttachment),
        m.sync_sources, m.truncated⟩ : ClaudeMessage),
      ?_, rfl, rfl, ?_⟩
    · unfold ClaudeMessage.parseFromHistory
      rw [hv2, hatts]
      rfl
    · exact filter_not_att_perm m.files

/-- A message carrying one short-text code-execution file. -/
def c1CounterMsg : ClaudeMessage :=
  { ClaudeMessage.blank with
    content := [textBlock "x"],
    files := [.codeExec (some "u1") (some "notes.txt") (some "notes.txt")
      (some "/mnt/user-data/uploads/notes.txt") (some 2) (some "document")
      none none none none none none (some "org") (some "conv")
      (some "hi") false] }

/-- C1 counterexample: a message with a short-text code-execution file does
not round-trip its file set — serialization inlines the file as a plain
attachment, which parses back as a `ClaudeAttachment`, so the recovered file
list is not even a permutation of the original. -/
theorem c1_counterexample :
    (ClaudeMessage.parseFromHistory none c1CounterMsg.toHistoryJSON).toOption.map
        ClaudeMessage.files =
      some [.attachment (some "hi") (some "notes.txt") (some 2)
        (some "text/plain")] ∧
    ¬ ([ClaudeFileT.attachment (some "hi") (some "notes.txt") (some 2)
        (some "text/plain")].Perm c1CounterMsg.files) := by
  constructor
  · decide
  · intro hperm
    have := hperm.mem_iff (a := ClaudeFileT.attachment (some "hi")
      (some "notes.txt") (some 2) (some "text/plain"))
    simp [c1CounterMsg] at this

/-- A message with one inline attachment and one normalized regular file. -/
def c1GoodMsg : ClaudeMessage :=
  { ClaudeMessage.blank with
    content := [textBlock "hello"],
    files := [.attachment (some "data") (some "a.txt") (some 4)
        (some "text/plain"),
      .file (some "uu") (some "img.png") (some "image")
        none none none none none] }

/-- The message `c1CounterMsg` parses back to: the code-execution file has
returned as a plain attachment, text and content unchanged. -/
def c1ParsedMsg : ClaudeMessage :=
  { ClaudeMessage.blank with
    content := [textBlock "x"],
    files := [.attachment (some "hi") (some "notes.txt") (some 2)
      (some "text/plain")] }

/-- C1 witness: all three clauses of the amended round-trip theorem at
concrete inputs — text/content preservation at the code-execution-file
message (whose parse result is computed explicitly), parse success for the
same wire-parseable message, and the file-multiset clause at a message whose
files are an attachment and a regular file. -/
theorem c1_amended_witness :
    (ClaudeMessage.parseFromHistory none c1CounterMsg.toHistoryJSON =
        .ok c1ParsedMsg ∧
      c1ParsedMsg.text = c1CounterMsg.text ∧
      c1ParsedMsg.content = c1CounterMsg.content) ∧
    ((∀ f ∈ c1CounterMsg.files, fileWireOk f = true) ∧
      ∃ m', ClaudeMessage.parseFromHistory none c1CounterMsg.toHistoryJSON =
          .ok m' ∧
        m'.text = c1CounterMsg.text ∧ m'.content = c1CounterMsg.content) ∧
    ((∀ f ∈ c1GoodMsg.files, plainFileOk f = true) ∧
      ∃ m', ClaudeMessage.parseFromHistory none c1GoodMsg.toHistoryJSON =
          .ok m' ∧
        m'.text = c1GoodMsg.text ∧ m'.content = c1GoodMsg.content ∧
        m'.files.Perm c1GoodMsg.files) :=
  ⟨⟨rfl, c1_amended.1 c1CounterMsg none c1ParsedMsg rfl⟩,
   ⟨by decide, c1_amended.2.1 c1CounterMsg none (by decide)⟩,
   ⟨by decide, c1_amended.2.2 c1GoodMsg none (by decide)⟩⟩

/-! ## C7: cleanupMessages on alternating input -/

theorem cleanupStep1_eq (l : List ClaudeMessage) (i : Nat) :
    cleanupStep1 l i =
      if i < l.length then
        if firstContentText (l.getD i default) = CONTINUED_MARKER then
          if 0 < i ∧
              (l.getD (i - 1) default).sender =
                (l.getD i default).sender.alternate ∧
              firstContentText (l.getD (i - 1) default) = "Acknowledged." then
            cleanupStep1 ((l.eraseIdx (i - 1)).eraseIdx (i - 1)) (i - 1)
          else
            cleanupStep1 (l.eraseIdx i) i
        else cleanupStep1 l (i + 1)
      else l := by
  rw [cleanupStep1]
  split
  · rfl
  · rfl

theorem cleanupStep2_eq (now : String) (l : List ClaudeMessage) (i ctr : Nat) :
    cleanupStep2 now l i ctr =
      if i + 1 < l.length then
        if (l.getD i default).sender = (l.getD (i + 1) default).sender then
          cleanupStep2 now
            (l.take (i + 1) ++
              { ClaudeMessage.blank with
                uuid := some (MsgId.gen ctr),
                parent_message_uuid := (l.getD i default).uuid,
                sender := (l.getD i default).sender.alternate,
                content := [textBlock
                  (if (l.getD i default).sender.alternate = Sender.assistant
                    then "Acknowledged." else "Continue.")],
                created_at :=
                  if strTruthy (l.getD i default).created_at then
                    (l.getD i default).created_at
                  else some now } ::
              { l.getD (i + 1) default with
                parent_message_uuid := some (MsgId.gen ctr) } ::
              l.drop (i + 2)) (i + 2) (ctr + 1)
        else cleanupStep2 now l (i + 1) ctr
      else (l, ctr) := by
  rw [cleanupStep2]
  split
  · rfl
  · rfl

theorem cleanupStep1_id (l : List ClaudeMessage)
    (hns : ∀ m ∈ l, firstContentText m ≠ CONTINUED_MARKER) :
    ∀ d i, l.length ≤ i + d → cleanupStep1 l i = l := by
  intro d
  induction d with
  | zero =>
    intro i hd
    rw [cleanupStep1_eq, if_neg (by omega)]
  | succ d ih =>
    intro i hd
    by_cases hi : i < l.length
    · rw [cleanupStep1_eq, if_pos hi]
      have hmem : l.getD i default ∈ l := by
        rw [List.getD_eq_getElem l default hi]
        exact List.getElem_mem hi
      rw [if_neg (hns _ hmem)]
      exact ih (i + 1) (by omega)
    · rw [cleanupStep1_eq, if_neg hi]

theorem cleanupStep2_id (now : String) (l : List ClaudeMessage)
    (halt : List.Chain' (fun a b => a.sender ≠ b.sender) l) :
    ∀ d i ctr, l.length ≤ i + 1 + d → cleanupStep2 now l i ctr = (l, ctr) := by
  intro d
  induction d with
  | zero =>
    intro i ctr hd
    rw [cleanupStep2_eq, if_neg (by omega)]
  | succ d ih =>
    intro i ctr hd
    by_cases hi : i + 1 < l.length
    · rw [cleanupStep2_eq, if_pos hi]
      have hii : i < l.length - 1 := by omega
      have hdiff := List.chain'_iff_get.mp halt i hii
      have hg1 : l.get ⟨i, by omega⟩ = l.getD i default := by
        rw [List.getD_eq_getElem l default (by omega)]
        simp
      have hg2 : l.get ⟨i + 1, by omega⟩ = l.getD (i + 1) default := by
        rw [List.getD_eq_getElem l default (by omega)]
        simp
      rw [hg1, hg2] at hdiff
      rw [if_neg hdiff]
      exact ih (i + 1) ctr (by omega)
    · rw [cleanupStep2_eq, if_neg hi]

/-- C7 (amended): on a message sequence whose senders already strictly
alternate and that contains no continuation-sentinel message,
`cleanupMessages` is the identity (and draws no fresh id). -/
theorem c7_amended (msgs : List ClaudeMessage) (now : String) (ctr : Nat)
    (halt : List.Chain' (fun a b => a.sender ≠ b.sender) msgs)
    (hns : ∀ m ∈ msgs, firstContentText m ≠ CONTINUED_MARKER) :
    cleanupMessages msgs now ctr = (msgs, ctr) := by
  unfold cleanupMessages
  rw [cleanupStep1_id msgs hns msgs.length 0 (by omega)]
  exact cleanupStep2_id now msgs halt msgs.length 0 ctr (by omega)

/-- The continuation-sentinel message of the counterexample. -/
def c7MsgH : ClaudeMessage :=
  { ClaudeMessage.blank with
    sender := .human, content := [textBlock CONTINUED_MARKER] }

/-- The assistant reply of the counterexample. -/
def c7MsgA : ClaudeMessage :=
  { ClaudeMessage.blank with
    sender := .assistant, content := [textBlock "x"] }

/-- The strictly alternating two-message counterexample input. -/
def c7Msgs : List ClaudeMessage := [c7MsgH, c7MsgA]

/-- C7 counterexample: `cleanupMessages` is not the identity on every
strictly alternating sequence — an alternating sequence whose first message
carries the continuation sentinel loses that message (step 1 removes
synthetic continuation fillers before alternation repair). -/
theorem c7_counterexample :
    List.Chain' (fun a b => a.sender ≠ b.sender) c7Msgs ∧
    (cleanupMessages c7Msgs "ts" 0).1 ≠ c7Msgs := by
  constructor
  · unfold c7Msgs
    rw [List.chain'_pair]
    decide
  · have h1 : cleanupStep1 c7Msgs 0 = cleanupStep1 [c7MsgA] 0 := by
      rw [cleanupStep1_eq]
      rw [if_pos (by decide)]
      rw [if_pos (by decide)]
      rw [if_neg (by decide)]
      rfl
    have h2 : cleanupStep1 [c7MsgA] 0 = cleanupStep1 [c7MsgA] 1 := by
      rw [cleanupStep1_eq]
      rw [if_pos (by decide)]
      rw [if_neg (by decide)]
    have h3 : cleanupStep1 [c7MsgA] 1 = [c7MsgA] := by
      rw [cleanupStep1_eq]
      rw [if_neg (by decide)]
    have h4 : cleanupMessages c7Msgs "ts" 0 = ([c7MsgA], 0) := by
      unfold cleanupMessages
      rw [h1, h2, h3]
      rw [cleanupStep2_eq]
      rw [if_neg (by decide)]
    rw [h4]
    intro hx
    have := congrArg List.length hx
    simp [c7Msgs] at this

/-- A plain human message without sentinel text. -/
def c7GoodH : ClaudeMessage :=
  { ClaudeMessage.blank with sender := .human, content := [textBlock "hi"] }

/-- A plain assistant message without sentinel text. -/
def c7GoodA : ClaudeMessage :=
  { ClaudeMessage.blank with
    sender := .assistant, content := [textBlock "hello"] }

/-- A plain alternating two-message conversation without sentinel texts. -/
def c7GoodMsgs : List ClaudeMessage := [c7GoodH, c7GoodA]

/-- C7 witness: the amended identity theorem applied to a concrete
alternating two-message conversation without sentinel texts. -/
theorem c7_amended_witness :
    (List.Chain' (fun a b => a.sender ≠ b.sender) c7GoodMsgs ∧
      (∀ m ∈ c7GoodMsgs, firstContentText m ≠ CONTINUED_MARKER)) ∧
    cleanupMessages c7GoodMsgs "ts" 5 = (c7GoodMsgs, 5) :=
  ⟨⟨by unfold c7GoodMsgs; rw [List.chain'_pair]; decide, by decide⟩,
    c7_amended c7GoodMsgs "ts" 5
      (by unfold c7GoodMsgs; rw [List.chain'_pair]; decide) (by decide)⟩

/-! ## C5: phantom message injection -/

instance : Inhabited HistoryJson := ⟨ClaudeMessage.blank.toHistoryJSON⟩

theorem assignIndexes_length (l : List HistoryJson) : ∀ i : Nat,
    (assignIndexes i l).length = l.length := by
  induction l with
  | nil => intro i; rfl
  | cons m rest ih =>
    intro i
    simp [assignIndexes, ih]

theorem assignIndexes_getD (l : List HistoryJson) : ∀ i j : Nat,
    j < l.length →
    (assignIndexes i l).getD j default =
      { l.getD j default with index := i + j } := by
  induction l with
  | nil =>
    intro i j hj
    simp at hj
  | cons m rest ih =>
    intro i j hj
    cases j with
    | zero => simp [assignIndexes]
    | succ j =>
      simp only [assignIndexes, List.getD_cons_succ]
      rw [ih (i + 1) j (by simpa using hj)]
      have : i + 1 + j = i + (j + 1) := by omega
      rw [this]

theorem getD_map_hist (f : ClaudeMessage → HistoryJson)
    (l : List ClaudeMessage) (j : Nat) (hj : j < l.length) :
    (l.map f).getD j default = f (l.getD j default) := by
  rw [List.getD_eq_getElem _ default (by simpa using hj),
    List.getD_eq_getElem _ default hj, List.getElem_map]

theorem getD_map_repoint (f : HistoryJson → HistoryJson)
    (l : List HistoryJson) (j : Nat) (hj : j < l.length) :
    (l.map f).getD j default = f (l.getD j default) := by
  rw [List.getD_eq_getElem _ default (by simpa using hj),
    List.getD_eq_getElem _ default hj, List.getElem_map]

/-- The phantom-overlay shape property: the overlay (with its possible
acknowledgment) is prepended as history records, every real root-level
message is re-pointed at the last phantom's id, non-root parents are
untouched, and the whole concatenation carries the contiguous indexes
`0, 1, 2, …`. -/
def PhantomInjectProp (data : ConvoData) (phantoms : List ClaudeMessage)
    (ts : String) (ctr : Nat) : Prop :=
  ∃ lastP : ClaudeMessage,
    (phantomWithAck phantoms ts ctr).1.getLast? = some lastP ∧
    (injectPhantomMessages data phantoms ts ctr).1.chat_messages.length =
      (phantomWithAck phantoms ts ctr).1.length +
        data.chat_messages.length ∧
    (∀ i, i <
        (injectPhantomMessages data phantoms ts ctr).1.chat_messages.length →
      ((injectPhantomMessages data phantoms ts
          ctr).1.chat_messages.getD i default).index = i) ∧
    (∀ i, i < (phantomWithAck phantoms ts ctr).1.length →
      (injectPhantomMessages data phantoms ts ctr).1.chat_messages.getD i
          default =
        { ((phantomWithAck phantoms ts ctr).1.map
            ClaudeMessage.toHistoryJSON).getD i default with index := i }) ∧
    (∀ j, j < data.chat_messages.length →
      (injectPhantomMessages data phantoms ts ctr).1.chat_messages.getD
          ((phantomWithAck phantoms ts ctr).1.length + j) default =
        { (if (data.chat_messages.getD j default).parent_message_uuid =
              some ROOT_ID then
            { data.chat_messages.getD j default with
              parent_message_uuid := lastP.uuid }
          else data.chat_messages.getD j default) with
          index := (phantomWithAck phantoms ts ctr).1.length + j })

theorem phantomWithAck_ne_nil (phantoms : List ClaudeMessage) (ts : String)
    (ctr : Nat) (h : phantoms ≠ []) : (phantomWithAck phantoms ts ctr).1 ≠ [] := by
  unfold phantomWithAck
  dsimp only
  cases hlast : (phantoms.map (phantomizeMsg ts)).getLast? with
  | none =>
    rw [List.getLast?_eq_none_iff] at hlast
    simp at hlast
    exact absurd hlast h
  | some lastP =>
    dsimp only
    split
    · simp
    · simp [h]

/-- The first phantom scenario message (human). -/
def c5Ph1 : ClaudeMessage :=
  { ClaudeMessage.blank with
    uuid := some (.named "p1"), sender := .human,
    content := [textBlock "p1 text"] }

/-- The second phantom scenario message (assistant). -/
def c5Ph2 : ClaudeMessage :=
  { ClaudeMessage.blank with
    uuid := some (.named "p2"), parent_message_uuid := some (.named "p1"),
    sender := .assistant, content := [textBlock "p2 text"] }

/-- The single real root-level message of the scenario. -/
def c5Real : HistoryJson :=
  { uuid := some (.named "r1"), text := "r", content := [textBlock "r"],
    sender := .human, index := 0, created_at := none, updated_at := none,
    truncated := false, attachments := [], files := [], files_v2 := [],
    sync_sources := [], parent_message_uuid := some ROOT_ID }

/-- The scenario conversation payload. -/
def c5Data : ConvoData := ⟨[c5Real]⟩

/-- C5: with a non-empty persisted phantom sequence, the overlay read
prepends the phantoms, re-points every real root-level message's parent at
the last phantom's id, and recomputes a contiguous index across the
concatenation; in the two-phantom scenario over a one-message conversation
the result has 3 messages, the real message's parent is the phantom
assistant's id `"p2"`, and the indexes are 0, 1, 2. -/
theorem c5_phantom_inject :
    (∀ (data : ConvoData) (phantoms : List ClaudeMessage) (ts : String)
        (ctr : Nat), phantoms ≠ [] → PhantomInjectProp data phantoms ts ctr) ∧
    ((injectPhantomMessages c5Data [c5Ph1, c5Ph2] "T" 0).1.chat_messages.length
        = 3 ∧
      ((injectPhantomMessages c5Data [c5Ph1, c5Ph2] "T"
          0).1.chat_messages.getD 2 default).parent_message_uuid =
        some (.named "p2") ∧
      ((injectPhantomMessages c5Data [c5Ph1, c5Ph2] "T"
          0).1.chat_messages.getD 0 default).index = 0 ∧
      ((injectPhantomMessages c5Data [c5Ph1, c5Ph2] "T"
          0).1.chat_messages.getD 1 default).index = 1 ∧
      ((injectPhantomMessages c5Data [c5Ph1, c5Ph2] "T"
          0).1.chat_messages.getD 2 default).index = 2) := by
  constructor
  · intro data phantoms ts ctr hne
    have hfin := phantomWithAck_ne_nil phantoms ts ctr hne
    obtain ⟨lp, hlp⟩ : ∃ lp, (phantomWithAck phantoms ts ctr).1.getLast? =
        some lp := by
      cases hx : (phantomWithAck phantoms ts ctr).1.getLast? with
      | none =>
        rw [List.getLast?_eq_none_iff] at hx
        exact absurd hx hfin
      | some lp => exact ⟨lp, rfl⟩
    have hout : (injectPhantomMessages data phantoms ts ctr).1.chat_messages =
        assignIndexes 0
          ((phantomWithAck phantoms ts ctr).1.map ClaudeMessage.toHistoryJSON
            ++ data.chat_messages.map (fun r =>
              if r.parent_message_uuid = some ROOT_ID then
                { r with parent_message_uuid := lp.uuid }
              else r)) := by
      unfold injectPhantomMessages
      dsimp only
      rw [hlp]
    refine ⟨lp, hlp, ?_, ?_, ?_, ?_⟩
    · rw [hout, assignIndexes_length]
      simp
    · intro i hi
      rw [hout] at hi ⊢
      rw [assignIndexes_length] at hi
      rw [assignIndexes_getD _ 0 i hi]
      simp
    · intro i hi
      rw [hout]
      have hi2 : i < ((phantomWithAck phantoms ts ctr).1.map
          ClaudeMessage.toHistoryJSON ++ data.chat_messages.map (fun r =>
            if r.parent_message_uuid = some ROOT_ID then
              { r with parent_message_uuid := lp.uuid }
            else r)).length := by
        simp
        omega
      rw [assignIndexes_getD _ 0 i hi2]
      rw [List.getD_append _ _ default i (by simpa using hi)]
      rw [Nat.zero_add]
    · intro j hj
      rw [hout]
      have hlenp : ((phantomWithAck phantoms ts ctr).1.map
          ClaudeMessage.toHistoryJSON).length =
          (phantomWithAck phantoms ts ctr).1.length := by simp
      have hj2 : (phantomWithAck phantoms ts ctr).1.length + j <
          ((phantomWithAck phantoms ts ctr).1.map ClaudeMessage.toHistoryJSON
            ++ data.chat_messages.map (fun r =>
              if r.parent_message_uuid = some ROOT_ID then
                { r with parent_message_uuid := lp.uuid }
              else r)).length := by
        simp
        omega
      rw [assignIndexes_getD _ 0 _ hj2]
      rw [List.getD_append_right _ _ default _ (by omega)]
      rw [hlenp]
      have : (phantomWithAck phantoms ts ctr).1.length + j -
          (phantomWithAck phantoms ts ctr).1.length = j := by omega
      rw [this]
      rw [getD_map_repoint _ _ j hj]
      rw [Nat.zero_add]
  · refine ⟨?_, ?_, ?_, ?_, ?_⟩ <;> decide

/-- C5 witness: the overlay property instantiated at the concrete scenario,
discharging the non-emptiness hypothesis. -/
theorem c5_phantom_inject_witness :
    ([c5Ph1, c5Ph2] : List ClaudeMessage) ≠ [] ∧
      PhantomInjectProp c5Data [c5Ph1, c5Ph2] "T" 0 :=
  ⟨List.cons_ne_nil _ _,
    c5_phantom_inject.1 c5Data [c5Ph1, c5Ph2] "T" 0 (List.cons_ne_nil _ _)⟩

/-! ## C6: ancestor walk of parseRawClaudeJson -/

theorem buildBranch_shape (msgs : List HistoryJson) : ∀ (fuel : Nat)
    (cur : HistoryJson) (acc : List HistoryJson), 1 ≤ fuel →
    ∃ pre, buildBranch msgs fuel (some cur) acc = pre ++ cur :: acc := by
  intro fuel
  induction fuel with
  | zero =>
    intro cur acc h
    omega
  | succ f ih =>
    intro cur acc _
    simp only [buildBranch]
    split
    · exact ⟨[], rfl⟩
    · cases f with
      | zero => exact ⟨[], rfl⟩
      | succ f2 =>
        cases hpm : (match cur.parent_message_uuid with
          | some k => mapLookup msgs k
          | none => none) with
        | none =>
          exact ⟨[], rfl⟩
        | some nxt =>
          obtain ⟨pre2, hpre2⟩ := ih nxt (cur :: acc) (by omega)
          refine ⟨pre2 ++ [nxt], ?_⟩
          rw [hpre2]
          simp

theorem mapLookup_mem (msgs : List HistoryJson) (k : MsgId)
    (m : HistoryJson) (h : mapLookup msgs k = some m) : m ∈ msgs := by
  unfold mapLookup at h
  have := List.mem_of_find?_eq_some h
  simpa using this

theorem buildBranch_mem (msgs : List HistoryJson) : ∀ (fuel : Nat)
    (st : Option HistoryJson) (acc : List HistoryJson),
    (∀ x ∈ acc, x ∈ msgs) →
    (∀ cur, st = some cur → cur ∈ msgs) →
    ∀ x ∈ buildBranch msgs fuel st acc, x ∈ msgs := by
  intro fuel
  induction fuel with
  | zero =>
    intro st acc hacc _ x hx
    exact hacc x hx
  | succ f ih =>
    intro st acc hacc hst x hx
    cases st with
    | none => exact hacc x hx
    | some cur =>
      have hcur : cur ∈ msgs := hst cur rfl
      simp only [buildBranch] at hx
      split at hx
      · rcases List.mem_cons.mp hx with h | h
        · subst h
          exact hcur
        · exact hacc x h
      · refine ih _ (cur :: acc) ?_ ?_ x hx
        · intro y hy
          rcases List.mem_cons.mp hy with h | h
          · subst h
            exact hcur
          · exact hacc y h
        · intro c hc
          cases hpid : cur.parent_message_uuid with
          | none => rw [hpid] at hc; simp at hc
          | some kk =>
            rw [hpid] at hc
            exact mapLookup_mem msgs kk c hc

theorem convertRawMessages_ok (conv : Option ConversationRef)
    (l : List HistoryJson)
    (h : ∀ r ∈ l, ∃ cm, convertRawMessage conv r = .ok cm) :
    ∃ ms, convertRawMessages conv l = .ok ms ∧ ms.length = l.length := by
  induction l with
  | nil => exact ⟨[], rfl, rfl⟩
  | cons r rest ih =>
    obtain ⟨cm, hcm⟩ := h r (by simp)
    obtain ⟨ms, hms, hlen⟩ := ih (fun x hx => h x (by simp [hx]))
    refine ⟨cm :: ms, ?_, by simp [hlen]⟩
    simp only [convertRawMessages]
    rw [hcm, hms]
    rfl

/-- C6 (amended): when the leaf id resolves in the message map (and the
branch messages' file records parse), `parseRawClaudeJson` succeeds — it
never raises an error for a parent id missing from the message set; the walk
silently truncates instead, and the collected branch ends at the leaf in
root-to-leaf order. -/
theorem c6_amended (data : RawConvoData) (msgs : List HistoryJson)
    (m : HistoryJson) (conv : Option ConversationRef) (k : MsgId)
    (hmsgs : data.chat_messages = some msgs)
    (hleaf : data.current_leaf_message_uuid = some k)
    (htruthy : msgIdTruthy (some k) = true)
    (hfound : mapLookup msgs k = some m)
    (hconv : ∀ r ∈ msgs, ∃ cm, convertRawMessage conv r = .ok cm) :
    ∃ result pre, parseRawClaudeJson data conv = .ok result ∧
      buildBranch msgs (msgs.length + 1) (some m) [] = pre ++ [m] ∧
      convertRawMessages conv (pre ++ [m]) = .ok result.messages ∧
      1 ≤ result.messages.length := by
  obtain ⟨pre, hpre⟩ := buildBranch_shape msgs (msgs.length + 1) m []
    (by omega)
  have hbr : ∀ x ∈ buildBranch msgs (msgs.length + 1) (some m) [], x ∈ msgs := by
    refine buildBranch_mem msgs _ _ _ (by intro x hx; simp at hx) ?_
    intro cur hcur
    injection hcur with hcur2
    subst hcur2
    exact mapLookup_mem msgs k m hfound
  obtain ⟨ms, hms, hmslen⟩ := convertRawMessages_ok conv
    (buildBranch msgs (msgs.length + 1) (some m) [])
    (fun r hr => hconv r (hbr r hr))
  refine ⟨⟨(match data.name with
      | some s => if s = "" then "Imported Conversation" else s
      | none => "Imported Conversation"), ms,
    (if (msgs.map parentKeyOf).any
        (fun p => 1 < (msgs.map parentKeyOf).count p) then
      ["Multiple branches detected. Importing the current active branch."]
    else [])⟩, pre, ?_, ?_, ?_, ?_⟩
  · unfold parseRawClaudeJson
    rw [hmsgs]
    dsimp only
    rw [hleaf]
    rw [if_pos htruthy]
    rw [show leafStart msgs (some k) = mapLookup msgs k from rfl]
    rw [hfound]
    have hne : (buildBranch msgs (msgs.length + 1) (some m) []).isEmpty =
        false := by
      rw [hpre]
      cases pre <;> rfl
    rw [hne]
    rw [if_neg Bool.false_ne_true]
    rw [hms]
    rfl
  · rw [hpre]
  · rw [← hpre, hms]
  · rw [hmslen, hpre]
    simp

/-- The counterexample message: a leaf whose parent id is absent from the
message set. -/
def c6Msg : HistoryJson :=
  { uuid := some (.named "leaf"), text := "", content := [],
    sender := .human, index := 0, created_at := none, updated_at := none,
    truncated := false, attachments := [], files := [], files_v2 := [],
    sync_sources := [], parent_message_uuid := some (.named "missing") }

/-- The counterexample payload. -/
def c6Data : RawConvoData :=
  { name := some "conv", chat_messages := some [c6Msg],
    current_leaf_message_uuid := some (.named "leaf") }

/-- C6 counterexample: the walk references the parent id `"missing"`, which
is absent from the message set, yet `parseRawClaudeJson` raises no error — it
returns the truncated single-message path successfully. -/
theorem c6_counterexample :
    mapLookup [c6Msg] (.named "missing") = none ∧
    c6Msg.parent_message_uuid = some (.named "missing") ∧
    (parseRawClaudeJson c6Data none).toOption.map
      (fun r => r.messages.length) = some 1 := by
  refine ⟨rfl, rfl, by decide⟩

/-- C6 witness: the amended theorem applied to the concrete payload,
discharging every hypothesis there. -/
theorem c6_amended_witness :
    (c6Data.chat_messages = some [c6Msg] ∧
      c6Data.current_leaf_message_uuid = some (MsgId.named "leaf") ∧
      msgIdTruthy (some (MsgId.named "leaf")) = true ∧
      mapLookup [c6Msg] (MsgId.named "leaf") = some c6Msg ∧
      (∀ r ∈ [c6Msg], ∃ cm, convertRawMessage none r = .ok cm)) ∧
    (∃ result pre, parseRawClaudeJson c6Data none = .ok result ∧
      buildBranch [c6Msg] ([c6Msg].length + 1) (some c6Msg) [] =
        pre ++ [c6Msg] ∧
      convertRawMessages none (pre ++ [c6Msg]) = .ok result.messages ∧
      1 ≤ result.messages.length) :=
  ⟨⟨rfl, rfl, by decide, rfl,
      by
        intro r hr
        simp only [List.mem_singleton] at hr
        subst hr
        exact ⟨_, rfl⟩⟩,
    c6_amended c6Data [c6Msg] c6Msg none (MsgId.named "leaf") rfl rfl
      (by decide) rfl
      (by
        intro r hr
        simp only [List.mem_singleton] at hr
        subst hr
        exact ⟨_, rfl⟩)⟩

/-! ## Supporting lemmas: synthetic chunk generation (C4) -/

theorem Sender.alternate_ne (s : Sender) : s.alternate ≠ s := by
  cases s <;> decide

theorem genChunks_last (o : ClaudeMessage) (na : List ClaudeFileT)
    (bin : List ApiFileRecord) (first : Bool) (prev : Option MsgId)
    (ctr : Nat) :
    genChunks o na [bin] first prev ctr =
      ([{ ClaudeMessage.blank with
          uuid := o.uuid, parent_message_uuid := prev, sender := o.sender,
          created_at := o.created_at,
          content := if first then o.content else [textBlock CONTINUED_MARKER],
          files := (if first then na else []) ++ bin.map attFromJSON }],
        ctr) := rfl

theorem genChunks_cons (o : ClaudeMessage) (na : List ClaudeFileT)
    (bin b2 : List ApiFileRecord) (rest : List (List ApiFileRecord))
    (first : Bool) (prev : Option MsgId) (ctr : Nat) :
    genChunks o na (bin :: b2 :: rest) first prev ctr =
      ({ ClaudeMessage.blank with
          uuid := some (MsgId.gen ctr), parent_message_uuid := prev,
          sender := o.sender, created_at := o.created_at,
          content := if first then o.content else [textBlock CONTINUED_MARKER],
          files := (if first then na else []) ++ bin.map attFromJSON } ::
        { ClaudeMessage.blank with
          uuid := some (MsgId.gen (ctr + 1)),
          parent_message_uuid := some (MsgId.gen ctr),
          sender := o.sender.alternate,
          content := [textBlock "Acknowledged."],
          created_at := o.created_at } ::
        (genChunks o na (b2 :: rest) false (some (MsgId.gen (ctr + 1)))
          (ctr + 2)).1,
       (genChunks o na (b2 :: rest) false (some (MsgId.gen (ctr + 1)))
          (ctr + 2)).2) := rfl

theorem genChunks_spec (o : ClaudeMessage) (na : List ClaudeFileT) :
    ∀ (bins : List (List ApiFileRecord)) (first : Bool)
      (prev : Option MsgId) (ctr : Nat), bins ≠ [] →
    (genChunks o na bins first prev ctr).1.length = 2 * bins.length - 1 ∧
    (genChunks o na bins first prev ctr).2 =
      ctr + ((genChunks o na bins first prev ctr).1.length - 1) ∧
    (∃ lastM pre2, (genChunks o na bins first prev ctr).1 =
        pre2 ++ [lastM] ∧ lastM.uuid = o.uuid ∧ lastM.sender = o.sender) ∧
    (∀ i, i + 1 < (genChunks o na bins first prev ctr).1.length →
      ((genChunks o na bins first prev ctr).1.getD i default).uuid =
        some (MsgId.gen (ctr + i))) ∧
    (∀ i, i < (genChunks o na bins first prev ctr).1.length →
      ((genChunks o na bins first prev ctr).1.getD i default).sender =
        if i % 2 = 0 then o.sender else o.sender.alternate) := by
  intro bins
  induction bins with
  | nil =>
    intro first prev ctr h
    exact absurd rfl h
  | cons bin rest ih =>
    intro first prev ctr _
    cases rest with
    | nil =>
      rw [genChunks_last]
      refine ⟨rfl, rfl, ⟨_, [], rfl, rfl, rfl⟩, ?_, ?_⟩
      · intro i hi
        simp at hi
      · intro i hi
        simp only [List.length_cons, List.length_nil] at hi
        interval_cases i
        simp
    | cons b2 rest2 =>
      have hrec := ih false (some (MsgId.gen (ctr + 1))) (ctr + 2)
        (List.cons_ne_nil b2 rest2)
      rw [genChunks_cons]
      obtain ⟨hlen, hctr, ⟨lastM, pre2, hsplit2, hlast1, hlast2⟩, hids,
        hsenders⟩ := hrec
      have hlenpos : 1 ≤ (genChunks o na (b2 :: rest2) false
          (some (MsgId.gen (ctr + 1))) (ctr + 2)).1.length := by
        rw [hlen]
        simp only [List.length_cons]
        omega
      refine ⟨?_, ?_, ?_, ?_, ?_⟩
      · simp only [List.length_cons, hlen]
        omega
      · simp only [List.length_cons, hctr, hlen]
        omega
      · refine ⟨lastM,
          { ClaudeMessage.blank with
            uuid := some (MsgId.gen ctr), parent_message_uuid := prev,
            sender := o.sender, created_at := o.created_at,
            content :=
              if first then o.content else [textBlock CONTINUED_MARKER],
            files := (if first then na else []) ++ bin.map attFromJSON } ::
          { ClaudeMessage.blank with
            uuid := some (MsgId.gen (ctr + 1)),
            parent_message_uuid := some (MsgId.gen ctr),
            sender := o.sender.alternate,
            content := [textBlock "Acknowledged."],
            created_at := o.created_at } :: pre2, ?_, hlast1, hlast2⟩
        rw [hsplit2]
        rfl
      · intro i hi
        match i with
        | 0 => rfl
        | 1 => rfl
        | (j + 2) =>
          simp only [List.getD_cons_succ]
          have hj : j + 1 < (genChunks o na (b2 :: rest2) false
              (some (MsgId.gen (ctr + 1))) (ctr + 2)).1.length := by
            simp only [List.length_cons] at hi
            omega
          rw [hids j hj]
          have : ctr + 2 + j = ctr + (j + 2) := by omega
          rw [this]
      · intro i hi
        match i with
        | 0 => rfl
        | 1 => rfl
        | (j + 2) =>
          simp only [List.getD_cons_succ]
          have hj : j < (genChunks o na (b2 :: rest2) false
              (some (MsgId.gen (ctr + 1))) (ctr + 2)).1.length := by
            simp only [List.length_cons] at hi
            omega
          rw [hsenders j hj]
          have : (j + 2) % 2 = j % 2 := by omega
          rw [this]

theorem splitLoop_ctr_ge (b e t now : String) : ∀ (n : Nat) (l : List Char)
    (p ctr : Nat), l.length ≤ n → ctr ≤ (splitLoop b e t now l p ctr).2 := by
  intro n
  induction n with
  | zero =>
    intro l p ctr h
    have hnil : l = [] := List.length_eq_zero.mp (by omega)
    subst hnil
    simp [splitLoop]
  | succ n ih =>
    intro l p ctr h
    cases l with
    | nil => simp [splitLoop]
    | cons c cs =>
      simp only [splitLoop]
      have hpos := splitChunkEnd_pos (c :: cs) (List.cons_ne_nil c cs)
      have hdrop : ((c :: cs).drop (splitChunkEnd (c :: cs))).length ≤ n := by
        simp only [List.length_drop, List.length_cons]
        simp only [List.length_cons] at h
        omega
      have := ih ((c :: cs).drop (splitChunkEnd (c :: cs))) (p + 1) (ctr + 1)
        hdrop
      omega

theorem splitOversized_ctr_ge (att : ApiFileRecord) (now : String)
    (ctr : Nat) : ctr ≤ (splitOversizedAttachment att now ctr).2 := by
  unfold splitOversizedAttachment
  dsimp only
  split
  · exact le_refl ctr
  · exact splitLoop_ctr_ge _ _ _ now _ _ 1 ctr (le_refl _)

theorem splitAll_ctr_ge (now : String) : ∀ (fs : List ClaudeFileT)
    (ctr : Nat), ctr ≤ (splitAllAttachments now fs ctr).2 := by
  intro fs
  induction fs with
  | nil =>
    intro ctr
    simp [splitAllAttachments]
  | cons f rest ih =>
    intro ctr
    simp only [splitAllAttachments]
    exact le_trans (splitOversized_ctr_ge f.toApiFormat now ctr) (ih _)

theorem splitLoop_ne_nil (b e t now : String) (l : List Char) (p ctr : Nat)
    (h : l ≠ []) : (splitLoop b e t now l p ctr).1 ≠ [] := by
  cases l with
  | nil => exact absurd rfl h
  | cons c cs => simp [splitLoop]

theorem splitOversized_ne_nil (att : ApiFileRecord) (now : String)
    (ctr : Nat) : (splitOversizedAttachment att now ctr).1 ≠ [] := by
  unfold splitOversizedAttachment
  dsimp only
  split
  · simp
  · rename_i hgt
    apply splitLoop_ne_nil
    intro hx
    have hz : ((att.extracted_content.getD none).getD "").toList.length =
        0 := by
      rw [hx]
      rfl
    have h0 : ((att.extracted_content.getD none).getD "").length = 0 := hz
    rw [h0] at hgt
    exact hgt (by omega)

theorem splitAll_ne_nil (now : String) (fs : List ClaudeFileT) (ctr : Nat)
    (h : fs ≠ []) : (splitAllAttachments now fs ctr).1 ≠ [] := by
  cases fs with
  | nil => exact absurd rfl h
  | cons f rest =>
    simp only [splitAllAttachments]
    intro hx
    rcases List.append_eq_nil.mp hx with ⟨h1, _⟩
    exact splitOversized_ne_nil f.toApiFormat now ctr h1

theorem binAttachments_ne_nil : ∀ (l cur : List ApiFileRecord) (tok : Nat),
    (l ≠ [] ∨ cur ≠ []) → binAttachments l cur tok ≠ [] := by
  intro l
  induction l with
  | nil =>
    intro cur tok h
    rcases h with h | h
    · exact absurd rfl h
    · simp only [binAttachments]
      rw [if_neg (by simpa [List.isEmpty_iff] using h)]
      simp
  | cons a rest ih =>
    intro cur tok _
    simp only [binAttachments]
    split
    · intro hx
      rcases List.append_eq_nil.mp hx with ⟨_, h2⟩
      simp at h2
    · split
      · simp
      · exact ih (cur ++ [a]) _ (Or.inr (by simp))

theorem chain_of_parity (o : ClaudeMessage) (l : List ClaudeMessage)
    (h : ∀ i, i < l.length → (l.getD i default).sender =
      if i % 2 = 0 then o.sender else o.sender.alternate) :
    List.Chain' (fun a b => a.sender ≠ b.sender) l := by
  rw [List.chain'_iff_get]
  intro i hi
  have h1 := h i (by omega)
  have h2 := h (i + 1) (by omega)
  have hg1 : l.get ⟨i, by omega⟩ = l.getD i default := by
    rw [List.getD_eq_getElem l default (by omega)]
    simp
  have hg2 : l.get ⟨i + 1, by omega⟩ = l.getD (i + 1) default := by
    rw [List.getD_eq_getElem l default (by omega)]
    simp
  rw [hg1, hg2, h1, h2]
  rcases Nat.mod_two_eq_zero_or_one i with hp | hp
  · rw [if_pos hp, if_neg (by omega)]
    exact fun hx => Sender.alternate_ne o.sender hx.symm
  · rw [if_neg (by omega), if_pos (by omega)]
    exact Sender.alternate_ne o.sender

theorem normalize_single_oversized (msg : ClaudeMessage) (now : String)
    (ctr : Nat) (h1 : LAST_CHUNK_SIZE < estimateTokens [msg])
    (h2 : msg.files.filter (fun f => f.isAttachment) ≠ []) :
    normalizeOversizedMessages now [msg] ctr =
      ((genChunks msg (msg.files.filter (fun f => !f.isAttachment))
        (binAttachments (splitAllAttachments now
          (msg.files.filter (fun f => f.isAttachment)) ctr).1 [] 0)
        true msg.parent_message_uuid
        (splitAllAttachments now
          (msg.files.filter (fun f => f.isAttachment)) ctr).2).1,
       (genChunks msg (msg.files.filter (fun f => !f.isAttachment))
        (binAttachments (splitAllAttachments now
          (msg.files.filter (fun f => f.isAttachment)) ctr).1 [] 0)
        true msg.parent_message_uuid
        (splitAllAttachments now
          (msg.files.filter (fun f => f.isAttachment)) ctr).2).2) := by
  simp only [normalizeOversizedMessages]
  rw [if_neg (by
    intro hx
    rcases hx with ha | hb
    · omega
    · exact h2 (List.isEmpty_iff.mp hb))]
  simp [normalizeOversizedMessages]

theorem splitLoop_eq_of_ne (b e t now : String) (l : List Char) (p ctr : Nat)
    (h : l ≠ []) :
    splitLoop b e t now l p ctr =
      (({ id := some (.gen ctr),
          file_name := some (b ++ "_part" ++ toString p ++ e),
          file_size := some (l.take (splitChunkEnd l)).length,
          file_type := some t,
          extracted_content := some (some (String.mk (l.take (splitChunkEnd l)))),
          created_at := some now } : ApiFileRecord) ::
        (splitLoop b e t now (l.drop (splitChunkEnd l)) (p + 1) (ctr + 1)).1,
       (splitLoop b e t now (l.drop (splitChunkEnd l)) (p + 1) (ctr + 1)).2) := by
  cases l with
  | nil => exact absurd rfl h
  | cons c cs => simp only [splitLoop]

theorem lastIndexOf_nl_replicate (n pos : Nat) :
    lastIndexOfCharWithin (List.replicate n 'a') '\n' pos = none := by
  unfold lastIndexOfCharWithin
  have hfil : (List.range (min (pos + 1) (List.replicate n 'a').length)).filter
      (fun i => (List.replicate n 'a').getD i ' ' = '\n') = [] := by
    rw [List.filter_eq_nil_iff]
    intro i _
    by_cases hi : i < n
    · rw [decide_eq_true_eq]
      rw [List.getD_eq_getElem _ _ (by simpa using hi)]
      simp
    · rw [decide_eq_true_eq]
      rw [List.getD_eq_default _ _ (by simpa using hi)]
      decide
  rw [hfil]
  rfl

theorem splitChunkEnd_replicate (n : Nat) :
    splitChunkEnd (List.replicate n 'a') = min n SPLIT_MAX_CHARS := by
  unfold splitChunkEnd
  dsimp only
  rw [List.length_replicate]
  split
  · rw [lastIndexOf_nl_replicate]
  · rfl

theorem splitOversizedAttachment_oversized (att : ApiFileRecord)
    (now : String) (ctr : Nat)
    (h : ¬ ((att.extracted_content.getD none).getD "").length ≤
      SPLIT_MAX_CHARS) :
    splitOversizedAttachment att now ctr =
      splitLoop (attBaseName att) (attExt att) (attFtype att) now
        ((att.extracted_content.getD none).getD "").toList 1 ctr := by
  unfold splitOversizedAttachment
  rw [if_neg h]

theorem splitLoop_replicate_step (b e t now : String) (n p ctr : Nat)
    (h : SPLIT_MAX_CHARS < n) :
    splitLoop b e t now (List.replicate n 'a') p ctr =
      (({ id := some (.gen ctr),
          file_name := some (b ++ "_part" ++ toString p ++ e),
          file_size := some SPLIT_MAX_CHARS, file_type := some t,
          extracted_content := some (some (String.mk
            (List.replicate SPLIT_MAX_CHARS 'a'))),
          created_at := some now } : ApiFileRecord) ::
        (splitLoop b e t now (List.replicate (n - SPLIT_MAX_CHARS) 'a')
          (p + 1) (ctr + 1)).1,
       (splitLoop b e t now (List.replicate (n - SPLIT_MAX_CHARS) 'a')
          (p + 1) (ctr + 1)).2) := by
  have hne : List.replicate n 'a' ≠ [] := by
    intro hx
    have := congrArg List.length hx
    simp at this
    omega
  rw [splitLoop_eq_of_ne _ _ _ _ _ _ _ hne]
  rw [splitChunkEnd_replicate]
  rw [Nat.min_eq_right (le_of_lt h)]
  rw [List.take_replicate, List.drop_replicate]
  rw [Nat.min_eq_left (le_of_lt h)]
  rw [List.length_replicate]

theorem splitLoop_replicate_last (b e t now : String) (n p ctr : Nat)
    (h1 : 1 ≤ n) (h2 : n ≤ SPLIT_MAX_CHARS) :
    splitLoop b e t now (List.replicate n 'a') p ctr =
      ([({ id := some (.gen ctr),
           file_name := some (b ++ "_part" ++ toString p ++ e),
           file_size := some n, file_type := some t,
           extracted_content := some (some (String.mk
             (List.replicate n 'a'))),
           created_at := some now } : ApiFileRecord)], ctr + 1) := by
  have hne : List.replicate n 'a' ≠ [] := by
    intro hx
    have := congrArg List.length hx
    simp at this
    omega
  rw [splitLoop_eq_of_ne _ _ _ _ _ _ _ hne]
  rw [splitChunkEnd_replicate]
  rw [Nat.min_eq_left h2]
  rw [List.take_replicate, List.drop_replicate]
  rw [Nat.min_self, Nat.sub_self, List.length_replicate]
  simp [splitLoop]

/-! ## C4: normalizeOversizedMessages -/

/-- The scenario attachment: 200,000 characters of inline content,
estimating at 50,000 tokens. -/
def c4Att : ClaudeFileT :=
  .attachment (some (String.mk (List.replicate 200000 'a'))) (some "big.txt")
    (some 200000) (some "text/plain")

/-- The scenario message carrying the oversized attachment. -/
def c4Msg : ClaudeMessage :=
  { ClaudeMessage.blank with
    uuid := some (.named "orig"), sender := .human, files := [c4Att] }

/-- First split part of the scenario attachment. -/
def c4Part1 : ApiFileRecord :=
  { id := some (.gen 0), file_name := some "big_part1.txt",
    file_size := some 60000, file_type := some "text/plain",
    extracted_content := some (some (String.mk (List.replicate 60000 'a'))),
    created_at := some "T" }

/-- Second split part of the scenario attachment. -/
def c4Part2 : ApiFileRecord :=
  { id := some (.gen 1), file_name := some "big_part2.txt",
    file_size := some 60000, file_type := some "text/plain",
    extracted_content := some (some (String.mk (List.replicate 60000 'a'))),
    created_at := some "T" }

/-- Third split part of the scenario attachment. -/
def c4Part3 : ApiFileRecord :=
  { id := some (.gen 2), file_name := some "big_part3.txt",
    file_size := some 60000, file_type := some "text/plain",
    extracted_content := some (some (String.mk (List.replicate 60000 'a'))),
    created_at := some "T" }

/-- Fourth split part of the scenario attachment. -/
def c4Part4 : ApiFileRecord :=
  { id := some (.gen 3), file_name := some "big_part4.txt",
    file_size := some 20000, file_type := some "text/plain",
    extracted_content := some (some (String.mk (List.replicate 20000 'a'))),
    created_at := some "T" }

theorem string_length_mk (l : List Char) : (String.mk l).length = l.length :=
  rfl

theorem string_toList_mk (l : List Char) : (String.mk l).toList = l := rfl

theorem c4_att_content :
    ((c4Att.toApiFormat.extracted_content.getD none).getD "") =
      String.mk (List.replicate 200000 'a') := rfl

theorem c4_split_eq : splitOversizedAttachment c4Att.toApiFormat "T" 0 =
    ([c4Part1, c4Part2, c4Part3, c4Part4], 4) := by
  have hcontentlen :
      ((c4Att.toApiFormat.extracted_content.getD none).getD "").length =
        200000 := by
    rw [c4_att_content, string_length_mk, List.length_replicate]
  rw [splitOversizedAttachment_oversized _ _ _ (by
    rw [hcontentlen]
    norm_num [SPLIT_MAX_CHARS, LAST_CHUNK_SIZE])]
  have hbase : attBaseName c4Att.toApiFormat = "big" := by decide
  have hext : attExt c4Att.toApiFormat = ".txt" := by decide
  have hft : attFtype c4Att.toApiFormat = "text/plain" := by decide
  have htl : ((c4Att.toApiFormat.extracted_content.getD none).getD "").toList =
      List.replicate 200000 'a' := by
    rw [c4_att_content, string_toList_mk]
  rw [hbase, hext, hft, htl]
  rw [splitLoop_replicate_step _ _ _ _ _ _ _ (by
    norm_num [SPLIT_MAX_CHARS, LAST_CHUNK_SIZE])]
  have e1 : (200000 : Nat) - SPLIT_MAX_CHARS = 140000 := by
    norm_num [SPLIT_MAX_CHARS, LAST_CHUNK_SIZE]
  rw [e1]
  rw [splitLoop_replicate_step _ _ _ _ _ _ _ (by
    norm_num [SPLIT_MAX_CHARS, LAST_CHUNK_SIZE])]
  have e2 : (140000 : Nat) - SPLIT_MAX_CHARS = 80000 := by
    norm_num [SPLIT_MAX_CHARS, LAST_CHUNK_SIZE]
  rw [e2]
  rw [splitLoop_replicate_step _ _ _ _ _ _ _ (by
    norm_num [SPLIT_MAX_CHARS, LAST_CHUNK_SIZE])]
  have e3 : (80000 : Nat) - SPLIT_MAX_CHARS = 20000 := by
    norm_num [SPLIT_MAX_CHARS, LAST_CHUNK_SIZE]
  rw [e3]
  rw [splitLoop_replicate_last _ _ _ _ _ _ _ (by norm_num) (by
    norm_num [SPLIT_MAX_CHARS, LAST_CHUNK_SIZE])]
  have eS : SPLIT_MAX_CHARS = 60000 := by
    norm_num [SPLIT_MAX_CHARS, LAST_CHUNK_SIZE]
  rw [eS]
  rfl

theorem c4_part1_content : ((c4Part1.extracted_content.getD none).getD "") =
    String.mk (List.replicate 60000 'a') := rfl

theorem c4_part2_content : ((c4Part2.extracted_content.getD none).getD "") =
    String.mk (List.replicate 60000 'a') := rfl

theorem c4_part3_content : ((c4Part3.extracted_content.getD none).getD "") =
    String.mk (List.replicate 60000 'a') := rfl

theorem c4_part4_content : ((c4Part4.extracted_content.getD none).getD "") =
    String.mk (List.replicate 20000 'a') := rfl

theorem attContentChars_attachment (ec : Option String) (fn : Option String)
    (fs : Option Nat) (ft : Option String) :
    attContentChars (ClaudeFileT.attachment ec fn fs ft) =
      (ec.getD "").length := rfl

theorem c4_att_chars : attContentChars c4Att = 200000 := by
  have hc4 : c4Att = ClaudeFileT.attachment
      (some (String.mk (List.replicate 200000 'a'))) (some "big.txt")
      (some 200000) (some "text/plain") := rfl
  rw [hc4, attContentChars_attachment, Option.getD_some, string_length_mk,
    List.length_replicate]

theorem c4_est : estimateTokens [c4Msg] = 50000 := by
  have h1 : (extractMessageText c4Msg).length = 0 := rfl
  have hfiles : c4Msg.files = [c4Att] := rfl
  have hm : msgChars c4Msg = 200000 := by
    rw [msgChars.eq_def, h1, hfiles, List.map_cons, List.map_nil,
      c4_att_chars, List.sum_cons, List.sum_nil]
    norm_num
  rw [estimateTokens.eq_def, List.map_cons, List.map_nil, hm, List.sum_cons,
    List.sum_nil]
  norm_num

theorem c4_bins : binAttachments [c4Part1, c4Part2, c4Part3, c4Part4] [] 0 =
    [[c4Part1], [c4Part2], [c4Part3], [c4Part4]] := by
  have t1 : attRecordTokens c4Part1 = 15000 := by
    rw [attRecordTokens.eq_def, c4_part1_content, string_length_mk,
      List.length_replicate]
  have t2 : attRecordTokens c4Part2 = 15000 := by
    rw [attRecordTokens.eq_def, c4_part2_content, string_length_mk,
      List.length_replicate]
  have t3 : attRecordTokens c4Part3 = 15000 := by
    rw [attRecordTokens.eq_def, c4_part3_content, string_length_mk,
      List.length_replicate]
  have t4 : attRecordTokens c4Part4 = 5000 := by
    rw [attRecordTokens.eq_def, c4_part4_content, string_length_mk,
      List.length_replicate]
  simp [binAttachments, t1, t2, t3, t4, LAST_CHUNK_SIZE]

/-- Unfolding of `splitAllAttachments` on a one-element file list. -/
theorem splitAll_singleton (now : String) (f : ClaudeFileT) (ctr : Nat) :
    splitAllAttachments now [f] ctr =
      ((splitOversizedAttachment f.toApiFormat now ctr).1 ++ [],
       (splitOversizedAttachment f.toApiFormat now ctr).2) := rfl

/-- The shape the claim asserts of the replacement segment: at least one
message, strictly alternating senders, the final message reusing the original
message's id and sender, every other synthesized message bearing a freshly
drawn id (consecutive generated ids from some base at or past the incoming
counter — hence pairwise distinct, and distinct from the original id whenever
that id is not itself a generated one). -/
def NormalizeOversizedProp (msg : ClaudeMessage) (now : String) (ctr : Nat) :
    Prop :=
  ∃ base : Nat, ctr ≤ base ∧
    1 ≤ (normalizeOversizedMessages now [msg] ctr).1.length ∧
    List.Chain' (fun a b => a.sender ≠ b.sender)
      (normalizeOversizedMessages now [msg] ctr).1 ∧
    (∃ lastM pre2, (normalizeOversizedMessages now [msg] ctr).1 =
      pre2 ++ [lastM] ∧ lastM.uuid = msg.uuid ∧ lastM.sender = msg.sender) ∧
    (∀ i, i + 1 < (normalizeOversizedMessages now [msg] ctr).1.length →
      ((normalizeOversizedMessages now [msg] ctr).1.getD i default).uuid =
        some (MsgId.gen (base + i))) ∧
    (∀ i j, i + 1 < (normalizeOversizedMessages now [msg] ctr).1.length →
      j + 1 < (normalizeOversizedMessages now [msg] ctr).1.length → i ≠ j →
      ((normalizeOversizedMessages now [msg] ctr).1.getD i default).uuid ≠
        ((normalizeOversizedMessages now [msg] ctr).1.getD j default).uuid) ∧
    (∀ i, i + 1 < (normalizeOversizedMessages now [msg] ctr).1.length →
      (∀ n, msg.uuid ≠ some (MsgId.gen n)) →
      ((normalizeOversizedMessages now [msg] ctr).1.getD i default).uuid ≠
        msg.uuid)

/-- C4: a message whose estimate exceeds the last-chunk budget and that
carries inline attachments is replaced by a synthetic segment with
acknowledgment turns inserted between consecutive bins so senders alternate,
only the final bin message reusing the original id and all other synthesized
messages drawing fresh ids; and the concrete 50,000-token scenario splits
into 7 (hence at least 4) alternating messages whose final one retains the
original id. -/
theorem c4_split_oversized :
    (∀ (msg : ClaudeMessage) (now : String) (ctr : Nat),
      LAST_CHUNK_SIZE < estimateTokens [msg] →
      msg.files.filter (fun f => f.isAttachment) ≠ [] →
      NormalizeOversizedProp msg now ctr) ∧
    ((normalizeOversizedMessages "T" [c4Msg] 0).1.length = 7 ∧
      4 ≤ (normalizeOversizedMessages "T" [c4Msg] 0).1.length ∧
      List.Chain' (fun a b => a.sender ≠ b.sender)
        (normalizeOversizedMessages "T" [c4Msg] 0).1 ∧
      (∃ lastM pre2, (normalizeOversizedMessages "T" [c4Msg] 0).1 =
        pre2 ++ [lastM] ∧ lastM.uuid = some (MsgId.named "orig"))) := by
  have huniv : ∀ (msg : ClaudeMessage) (now : String) (ctr : Nat),
      LAST_CHUNK_SIZE < estimateTokens [msg] →
      msg.files.filter (fun f => f.isAttachment) ≠ [] →
      NormalizeOversizedProp msg now ctr := by
    intro msg now ctr h1 h2
    have hbinsne : binAttachments (splitAllAttachments now
        (msg.files.filter (fun f => f.isAttachment)) ctr).1 [] 0 ≠ [] :=
      binAttachments_ne_nil _ [] 0
        (Or.inl (splitAll_ne_nil now _ ctr h2))
    have hnorm := normalize_single_oversized msg now ctr h1 h2
    have hout : (normalizeOversizedMessages now [msg] ctr).1 =
        (genChunks msg (msg.files.filter (fun f => !f.isAttachment))
          (binAttachments (splitAllAttachments now
            (msg.files.filter (fun f => f.isAttachment)) ctr).1 [] 0)
          true msg.parent_message_uuid
          (splitAllAttachments now
            (msg.files.filter (fun f => f.isAttachment)) ctr).2).1 := by
      rw [hnorm]
    have hspec := genChunks_spec msg
      (msg.files.filter (fun f => !f.isAttachment))
      (binAttachments (splitAllAttachments now
        (msg.files.filter (fun f => f.isAttachment)) ctr).1 [] 0)
      true msg.parent_message_uuid
      (splitAllAttachments now
        (msg.files.filter (fun f => f.isAttachment)) ctr).2 hbinsne
    obtain ⟨hlen, _, hlast, hids, hsenders⟩ := hspec
    refine ⟨(splitAllAttachments now
      (msg.files.filter (fun f => f.isAttachment)) ctr).2,
      splitAll_ctr_ge now _ ctr, ?_, ?_, ?_, ?_, ?_, ?_⟩
    · rw [hout, hlen]
      have : binAttachments (splitAllAttachments now
          (msg.files.filter (fun f => f.isAttachment)) ctr).1 [] 0 ≠ [] :=
        hbinsne
      have hpos : 1 ≤ (binAttachments (splitAllAttachments now
          (msg.files.filter (fun f => f.isAttachment)) ctr).1 [] 0).length :=
        List.length_pos.mpr this
      omega
    · rw [hout]
      exact chain_of_parity msg _ hsenders
    · rw [hout]
      obtain ⟨lastM, pre2, hsp, hu, hs⟩ := hlast
      exact ⟨lastM, pre2, hsp, hu, hs⟩
    · intro i hi
      rw [hout] at hi ⊢
      exact hids i hi
    · intro i j hi hj hne
      rw [hout] at hi hj ⊢
      rw [hids i hi, hids j hj]
      intro heq
      simp only [Option.some_inj, MsgId.gen.injEq] at heq
      omega
    · intro i hi hnotgen
      rw [hout] at hi ⊢
      rw [hids i hi]
      intro heq
      exact hnotgen _ heq.symm
  have hf1 : c4Msg.files.filter (fun f => f.isAttachment) = [c4Att] := rfl
  have hf2 : c4Msg.files.filter (fun f => !f.isAttachment) = [] := rfl
  have hsa : splitAllAttachments "T"
      (c4Msg.files.filter (fun f => f.isAttachment)) 0 =
      ([c4Part1, c4Part2, c4Part3, c4Part4], 4) := by
    rw [hf1, splitAll_singleton, c4_split_eq]
    rfl
  have hfst : (([c4Part1, c4Part2, c4Part3, c4Part4], (4 : Nat))).1 =
      [c4Part1, c4Part2, c4Part3, c4Part4] := rfl
  have hsnd : (([c4Part1, c4Part2, c4Part3, c4Part4], (4 : Nat))).2 = 4 := rfl
  have hnorm := normalize_single_oversized c4Msg "T" 0
    (by rw [c4_est]; norm_num [LAST_CHUNK_SIZE])
    (by rw [hf1]; exact List.cons_ne_nil _ _)
  rw [hsa, hf2, hfst, hsnd, c4_bins] at hnorm
  have hout : (normalizeOversizedMessages "T" [c4Msg] 0).1 =
      (genChunks c4Msg [] [[c4Part1], [c4Part2], [c4Part3], [c4Part4]]
        true c4Msg.parent_message_uuid 4).1 := by
    rw [hnorm]
  have hspec := genChunks_spec c4Msg []
    [[c4Part1], [c4Part2], [c4Part3], [c4Part4]]
    true c4Msg.parent_message_uuid 4 (List.cons_ne_nil _ _)
  refine ⟨huniv, ?_, ?_, ?_, ?_⟩
  · rw [hout, hspec.1]
    rfl
  · rw [hout, hspec.1]
    norm_num
  · rw [hout]
    exact chain_of_parity c4Msg _ hspec.2.2.2.2
  · rw [hout]
    obtain ⟨lastM, pre2, hsp, hu, _⟩ := hspec.2.2.1
    exact ⟨lastM, pre2, hsp, hu⟩

/-- C4 witness: the segment-shape property instantiated at the concrete
50,000-token scenario message, discharging both hypotheses. -/
theorem c4_split_oversized_witness :
    (LAST_CHUNK_SIZE < estimateTokens [c4Msg] ∧
      c4Msg.files.filter (fun f => f.isAttachment) ≠ []) ∧
    NormalizeOversizedProp c4Msg "T" 0 :=
  ⟨⟨by rw [c4_est]; norm_num [LAST_CHUNK_SIZE],
      by
        rw [show c4Msg.files.filter (fun f => f.isAttachment) = [c4Att]
          from rfl]
        exact List.cons_ne_nil _ _⟩,
    c4_split_oversized.1 c4Msg "T" 0
      (by rw [c4_est]; norm_num [LAST_CHUNK_SIZE])
      (by
        rw [show c4Msg.files.filter (fun f => f.isAttachment) = [c4Att]
          from rfl]
        exact List.cons_ne_nil _ _)⟩

/-! ## C9: tagged-text export / import round trip -/

/-- First scenario message: human "hi". -/
def c9M1 : ClaudeMessage :=
  { ClaudeMessage.blank with
    sender := .human, content := [textBlock "hi"] }

/-- Second scenario message: assistant "hello". -/
def c9M2 : ClaudeMessage :=
  { ClaudeMessage.blank with
    sender := .assistant, content := [textBlock "hello"] }

/-- Third scenario message: human "bye". -/
def c9M3 : ClaudeMessage :=
  { ClaudeMessage.blank with
    sender := .human, content := [textBlock "bye"] }

/-- Scenario conversation-level data for the export header. -/
def c9Convo : ExportConvoData :=
  { name := "Chat", updated_at := none, settings := none }

set_option maxRecDepth 100000 in
/-- C9: exporting the 3-message linear conversation human "hi" / assistant
"hello" / human "bye" with `formatTxtExport` and re-importing the resulting
tagged text with `parseAndValidateText` succeeds and yields exactly the same
number of messages with the same sender order and the same displayable text
as the originals. -/
theorem c9_txt_roundtrip :
    (parseAndValidateText (formatTxtExport c9Convo [c9M1, c9M2, c9M3] "c1")
        none).toOption.map (fun r =>
          (r.messages.map (fun m => m.sender),
           r.messages.map ClaudeMessage.text)) =
      some ([c9M1, c9M2, c9M3].map (fun m => m.sender),
            [c9M1, c9M2, c9M3].map ClaudeMessage.text) := by decide
